import Mathlib

/-
Verification of the orkestr workflow compiler / executor / steering code
against its natural-language specification.

The definitions below are a shallow embedding of the JavaScript sources:
  * tokenize, buildAST, astToGraph, validateBrackets, validateAgents,
    validateConnectivity, validateNoCycles, validateConditions,
    validateGraph                      (docs/testing/agent-system-manual-tests.md)
  * findExecutableNodes, evaluateCondition, isReadyToMerge, executeMerge,
    mergeBranchOutputs                 (docs/core/executor.md)
  * resetFromNode                      (steering implementation)
  * interpolateVariables               (src/temp-agents-executor.js)

Conventions of the embedding:
  * the JavaScript node-id strings "node-0", "node-1", ... are modelled by
    their numeric counter value (Nat); the rendering "node-N" is recovered
    by showId where an id appears inside an error message;
  * JavaScript exceptions are modelled with Except String;
  * JavaScript objects holding optional fields are modelled by structures
    with Option fields; an absent key is none;
  * loops whose termination is semantic rather than structural take an
    explicit fuel argument; every caller passes fuel that is large enough
    (the concrete theorems evaluate the functions, so the fuel is visibly
    never exhausted on the inputs at issue).
-/

set_option maxRecDepth 10000

namespace Orkestr

/-- JavaScript regex class \s restricted to the character set that can occur
in workflow strings (ASCII whitespace). -/
def jsSpace (c : Char) : Bool :=
  c = ' ' || c = '\t' || c = '\n' || c = '\r' || c = '\x0b' || c = '\x0c'

/-- Characters that terminate a checkpoint label: the source reads the label
with the regex /[\s\-\|\~\[\]\(\)]/ as stop set. -/
def labelStop (c : Char) : Bool :=
  jsSpace c || c = '-' || c = '|' || c = '~' || c = '[' || c = ']' ||
    c = '(' || c = ')'

instance {ε α : Type _} [DecidableEq ε] [DecidableEq α] : DecidableEq (Except ε α) := fun
  | .error a, .error b => decidable_of_iff (a = b) (by simp)
  | .error _, .ok _ => isFalse (by simp)
  | .ok _, .error _ => isFalse (by simp)
  | .ok a, .ok b => decidable_of_iff (a = b) (by simp)

/-- Token stream produced by tokenize (one constructor per token type the
source pushes). -/
inductive Token where
  | agent (value : String)
  | agentWithInstruction (agent instruction : String)
  | sequential
  | parallel
  | conditional
  | checkpoint (value : String)
  | openBracket
  | closeBracket
  | condition (value : String)
deriving DecidableEq, Repr

/-- JavaScript String.prototype.trim: drop whitespace from both ends. -/
def strTrim (s : String) : String :=
  String.mk (((s.data.dropWhile jsSpace).reverse.dropWhile jsSpace).reverse)

/-- Flush the accumulated bare-name characters as an agent token, mirroring
`if (current.trim()) tokens.push({type: 'agent', value: current.trim()})`.
(`current` only ever accumulates non-whitespace characters, so trimming is
the identity; it is kept for fidelity.) -/
def flushCurrent (current : String) : List Token :=
  if strTrim current = "" then [] else [Token.agent (strTrim current)]

/-- Core loop of tokenize, scanning the character list with the pending
bare-name accumulator `current`.  Each branch mirrors one branch of the
source's while-loop, in the same order.  The fuel argument only serves
structural termination; every step consumes at least one character, so
fuel = length of the input + 1 is always sufficient. -/
def tokenizeAux : Nat → List Char → String → List Token
  | 0, _, _ => []
  | fuel + 1, cs, current =>
    match cs with
    | [] => flushCurrent current
    | '-' :: '>' :: rest =>
        flushCurrent current ++ (Token.sequential :: tokenizeAux fuel rest "")
    | '|' :: '|' :: rest =>
        flushCurrent current ++ (Token.parallel :: tokenizeAux fuel rest "")
    | '~' :: '>' :: rest =>
        flushCurrent current ++ (Token.conditional :: tokenizeAux fuel rest "")
    | '@' :: rest =>
        -- read until whitespace or operator
        let labelChars := rest.takeWhile (fun c => !labelStop c)
        let rest2 := rest.dropWhile (fun c => !labelStop c)
        flushCurrent current ++
          (Token.checkpoint ("@" ++ String.mk labelChars) :: tokenizeAux fuel rest2 "")
    | '[' :: rest =>
        flushCurrent current ++ (Token.openBracket :: tokenizeAux fuel rest "")
    | ']' :: rest =>
        flushCurrent current ++ (Token.closeBracket :: tokenizeAux fuel rest "")
    | '(' :: 'i' :: 'f' :: ' ' :: rest =>
        -- condition text: read (starting at the open paren) until the closing
        -- paren, then append ')' and skip it; if the ')' is missing the scan
        -- consumes the remainder and still appends ')'
        let body := rest.takeWhile (fun c => c ≠ ')')
        let rest2 := (rest.dropWhile (fun c => c ≠ ')')).drop 1
        flushCurrent current ++
          (Token.condition ("(if " ++ String.mk body ++ ")") :: tokenizeAux fuel rest2 "")
    | '"' :: rest =>
        -- a double quote binds the pending bare name and the quoted text into
        -- one agent-with-instruction token (the agent may be empty)
        let instr := rest.takeWhile (fun c => c ≠ '"')
        let rest2 := (rest.dropWhile (fun c => c ≠ '"')).drop 1
        Token.agentWithInstruction (strTrim current) (String.mk instr) :: tokenizeAux fuel rest2 ""
    | c :: rest =>
        if jsSpace c then
          flushCurrent current ++ tokenizeAux fuel rest ""
        else
          tokenizeAux fuel rest (current.push c)

/-- tokenize(workflow): the source's tokenizer never throws, so the Except
layer (present because the spec declares the operation fallible) always
returns ok. -/
def tokenize (workflow : String) : Except String (List Token) :=
  Except.ok (tokenizeAux (workflow.data.length + 1) workflow.data "")

/-- AST node types of buildAST. -/
inductive ASTNode where
  | agent (name : String) (instruction : Option String)
  | checkpoint (label : String)
  | sequence (steps : List ASTNode)
  | parallel (branches : List ASTNode)
  | conditional (source : ASTNode) (condition : String) (target : ASTNode)
  | subgraph (children : ASTNode)
deriving Repr

/-- getOperatorPrecedence from buildAST. -/
def getOperatorPrecedence : Token → Nat
  | Token.openBracket => 4
  | Token.parallel => 3
  | Token.sequential => 2
  | Token.conditional => 1
  | _ => 0

/-- The JavaScript `type` string of a token, used in parse error messages. -/
def tokenTypeName : Token → String
  | Token.agent _ => "agent"
  | Token.agentWithInstruction _ _ => "agent-with-instruction"
  | Token.sequential => "sequential"
  | Token.parallel => "parallel"
  | Token.conditional => "conditional"
  | Token.checkpoint _ => "checkpoint"
  | Token.openBracket => "open-bracket"
  | Token.closeBracket => "close-bracket"
  | Token.condition _ => "condition"

/-- Left-associative fold for the sequential operator:
`left.type === 'sequence' ? [...left.steps, right] : [left, right]`. -/
def mergeSeq (left right : ASTNode) : ASTNode :=
  match left with
  | ASTNode.sequence ss => ASTNode.sequence (ss ++ [right])
  | _ => ASTNode.sequence [left, right]

/-- Left-associative fold for the parallel operator. -/
def mergePar (left right : ASTNode) : ASTNode :=
  match left with
  | ASTNode.parallel bs => ASTNode.parallel (bs ++ [right])
  | _ => ASTNode.parallel [left, right]

/-- Modelled from the spec: `findCondition(position - 2)` is referenced but
not defined in the source.  The spec says the `~>` operator looks back one
token for an adjacent condition annotation immediately preceding it.  The
parser below threads the already-consumed tokens (most recent first) as
`done`; the token at index position-2 of the stream is the head of `done`
at the moment the conditional operator is consumed. -/
def findCondition (done : List Token) : Option String :=
  match done with
  | Token.condition v :: _ => some v
  | _ => none

mutual

/-- parseExpression(precedence): parse a primary then run the operator loop.
Parser state is (done, rest): `rest` is the unconsumed suffix of the token
stream, `done` the consumed prefix in reverse order (so that the JavaScript
`position` equals done.length). -/
def parseExpr : Nat → Nat → List Token → List Token →
    Except String (ASTNode × List Token × List Token)
  | 0, _, _, _ => Except.error "internal: parser out of fuel"
  | fuel + 1, prec, done, rest => do
    let (left, d1, r1) ← parsePrimary fuel done rest
    parseLoop fuel prec left d1 r1

/-- parsePrimary: one token (agent, agent-with-instruction, checkpoint) or a
bracketed sub-expression.  Reaching the end of the token stream is the
JavaScript TypeError on `tokens[position++].type`. -/
def parsePrimary : Nat → List Token → List Token →
    Except String (ASTNode × List Token × List Token)
  | 0, _, _ => Except.error "internal: parser out of fuel"
  | fuel + 1, done, rest =>
    match rest with
    | [] => Except.error "Unexpected end of tokens"
    | t :: rest1 =>
      match t with
      | Token.agent v => Except.ok (ASTNode.agent v none, t :: done, rest1)
      | Token.agentWithInstruction a i =>
          Except.ok (ASTNode.agent a (some i), t :: done, rest1)
      | Token.checkpoint v => Except.ok (ASTNode.checkpoint v, t :: done, rest1)
      | Token.openBracket => do
          let (sub, d1, r1) ← parseExpr fuel 0 (t :: done) rest1
          match r1 with
          | Token.closeBracket :: r2 =>
              Except.ok (ASTNode.subgraph sub, Token.closeBracket :: d1, r2)
          | _ =>
              Except.error ("Unclosed subgraph bracket at position " ++ toString d1.length)
      | _ =>
          Except.error ("Unexpected token: " ++ tokenTypeName t ++
            " at position " ++ toString (t :: done).length)

/-- The operator loop of parseExpression: while the next token's precedence
is not below the current one, consume it; sequential/parallel/conditional
tokens fold a right operand into `left`, every other token type is consumed
silently (its precedence is 0 and no if-branch matches it). -/
def parseLoop : Nat → Nat → ASTNode → List Token → List Token →
    Except String (ASTNode × List Token × List Token)
  | 0, _, _, _, _ => Except.error "internal: parser out of fuel"
  | fuel + 1, prec, left, done, rest =>
    match rest with
    | [] => Except.ok (left, done, [])
    | t :: rest1 =>
      if getOperatorPrecedence t < prec then
        Except.ok (left, done, t :: rest1)
      else
        match t with
        | Token.sequential => do
            let (right, d1, r1) ←
              parseExpr fuel (getOperatorPrecedence t + 1) (t :: done) rest1
            parseLoop fuel prec (mergeSeq left right) d1 r1
        | Token.parallel => do
            let (right, d1, r1) ←
              parseExpr fuel (getOperatorPrecedence t + 1) (t :: done) rest1
            parseLoop fuel prec (mergePar left right) d1 r1
        | Token.conditional => do
            let cond := (findCondition done).getD "if failed"
            let (right, d1, r1) ←
              parseExpr fuel (getOperatorPrecedence t + 1) (t :: done) rest1
            parseLoop fuel prec (ASTNode.conditional left cond right) d1 r1
        | _ => parseLoop fuel prec left (t :: done) rest1

end

/-- buildAST(tokens): top-level parseExpression() with default precedence 0.
The fuel 2*length+4 is always sufficient (each unit of parser nesting or
looping consumes at least one token). -/
def buildAST (tokens : List Token) : Except String ASTNode := do
  let (node, _, _) ← parseExpr (2 * tokens.length + 4) 0 [] tokens
  Except.ok node

/-- Node status, a finite state. -/
inductive Status where
  | pending | executing | completed | failed | skipped
deriving DecidableEq, Repr

/-- Graph node kinds (the JavaScript `type` field). -/
inductive NodeKind where
  | agent | checkpoint | parallelEntry | parallelMerge
deriving DecidableEq, Repr

/-- A graph node.  The JavaScript objects are heterogeneous; fields that a
given kind does not carry stay at their defaults.  `id` is the numeric value
of the source's "node-N" string. -/
structure GraphNode where
  id : Nat
  kind : NodeKind
  agent : Option String := none
  instruction : Option String := none
  label : Option String := none
  waitFor : List Nat := []
  status : Status := Status.pending
deriving DecidableEq, Repr

/-- A graph edge; condition none is an unconditional edge. -/
structure GraphEdge where
  fromId : Nat
  toId : Nat
  condition : Option String := none
deriving DecidableEq, Repr

/-- The lowered directed graph. -/
structure Graph where
  nodes : List GraphNode
  edges : List GraphEdge
deriving DecidableEq, Repr

/-- Render a numeric node id the way the source spells it. -/
def showId (n : Nat) : String := "node-" ++ toString n

/-- Mutable state of astToGraph: the accumulated nodes and edges plus the
node id counter. -/
structure LowerState where
  nodes : List GraphNode
  edges : List GraphEdge
  counter : Nat
deriving Repr

/-- `edges.push({from: parentId, to: nodeId, condition: null})` guarded by
`if (parentId)`. -/
def pushParentEdge (parentId : Option Nat) (nodeId : Nat)
    (edges : List GraphEdge) : List GraphEdge :=
  match parentId with
  | some p => edges ++ [{fromId := p, toId := nodeId}]
  | none => edges

/-- Set the condition on the first edge matching from/to, mirroring
`edges.find(e => e.from === sourceId && e.to === targetId)` followed by the
in-place assignment `edge.condition = astNode.condition`; when no edge
matches, nothing happens. -/
def setCondFirst : List GraphEdge → Nat → Nat → String → List GraphEdge
  | [], _, _, _ => []
  | e :: es, s, t, cond =>
      if e.fromId = s && e.toId = t then {e with condition := some cond} :: es
      else e :: setCondFirst es s t cond

/-- The conditional case's edge update; an absent source or target id (the
JavaScript `undefined`) matches no edge. -/
def setEdgeCondition (edges : List GraphEdge) (sourceId targetId : Option Nat)
    (cond : String) : List GraphEdge :=
  match sourceId, targetId with
  | some s, some t => setCondFirst edges s t cond
  | _, _ => edges

mutual

/-- processNode(astNode, parentId) of astToGraph.  Returns the updated
lowering state and the id handed back to the caller (the JavaScript return
value; undefined is none). -/
def processNode : ASTNode → Option Nat → LowerState → LowerState × Option Nat
  | ASTNode.agent name instr, parentId, st =>
      let nodeId := st.counter
      ({nodes := st.nodes ++
          [{id := nodeId, kind := NodeKind.agent, agent := some name,
            instruction := instr}],
        edges := pushParentEdge parentId nodeId st.edges,
        counter := nodeId + 1}, some nodeId)
  | ASTNode.checkpoint lbl, parentId, st =>
      let nodeId := st.counter
      ({nodes := st.nodes ++
          [{id := nodeId, kind := NodeKind.checkpoint, label := some lbl}],
        edges := pushParentEdge parentId nodeId st.edges,
        counter := nodeId + 1}, some nodeId)
  | ASTNode.sequence steps, parentId, st => processSteps steps parentId st
  | ASTNode.parallel branches, parentId, st =>
      let entryId := st.counter
      let st1 : LowerState :=
        {nodes := st.nodes ++ [{id := entryId, kind := NodeKind.parallelEntry}],
         edges := pushParentEdge parentId entryId st.edges,
         counter := entryId + 1}
      let res := processBranches branches entryId st1
      let st2 := res.1
      let branchExits := res.2
      let mergeId := st2.counter
      ({nodes := st2.nodes ++
          [{id := mergeId, kind := NodeKind.parallelMerge, waitFor := branchExits}],
        edges := st2.edges ++
          branchExits.map (fun e => {fromId := e, toId := mergeId}),
        counter := mergeId + 1}, some mergeId)
  | ASTNode.conditional source _cond target, parentId, st =>
      let res1 := processNode source parentId st
      let res2 := processNode target res1.2 res1.1
      ({res2.1 with edges := setEdgeCondition res2.1.edges res1.2 res2.2 _cond},
        res2.2)
  | ASTNode.subgraph child, parentId, st => processNode child parentId st

/-- The sequence case: fold the predecessor through the steps in order. -/
def processSteps : List ASTNode → Option Nat → LowerState → LowerState × Option Nat
  | [], prevId, st => (st, prevId)
  | step :: rest, prevId, st =>
      let res := processNode step prevId st
      processSteps rest res.2 res.1

/-- The branch loop of the parallel case, collecting the branch exit ids in
declaration order.  A branch is lowered with the entry node as parent, so it
always hands back an id; the impossible none case contributes nothing. -/
def processBranches : List ASTNode → Nat → LowerState → LowerState × List Nat
  | [], _, st => (st, [])
  | b :: rest, entryId, st =>
      let res := processNode b (some entryId) st
      let res2 := processBranches rest entryId res.1
      (res2.1, (match res.2 with | some e => [e] | none => []) ++ res2.2)

end

/-- astToGraph(ast): lower from an empty state with no parent. -/
def astToGraph (ast : ASTNode) : Graph :=
  let res := processNode ast none {nodes := [], edges := [], counter := 0}
  {nodes := res.1.nodes, edges := res.1.edges}

/-- Join a list of strings with a separator (Array.prototype.join). -/
def joinSep (sep : String) : List String → String
  | [] => ""
  | [x] => x
  | x :: xs => x ++ sep ++ joinSep sep xs

/-- validateBrackets: scan the token stream tracking bracket depth. -/
def validateBracketsAux : List Token → Nat → Int → Except String Unit
  | [], _, depth =>
      if depth > 0 then
        Except.error ("Unclosed '[' - missing " ++ toString depth ++ " closing bracket(s)")
      else Except.ok ()
  | t :: ts, i, depth =>
      let depth1 : Int :=
        if t = Token.openBracket then depth + 1
        else if t = Token.closeBracket then depth - 1
        else depth
      if depth1 < 0 then Except.error ("Unexpected ']' at position " ++ toString i)
      else validateBracketsAux ts (i + 1) depth1

/-- Validation rule 1: bracket balance, re-derived from the tokens. -/
def validateBrackets (tokens : List Token) : Except String Unit :=
  validateBracketsAux tokens 0 0

/-- The VALID_AGENTS constant. -/
def VALID_AGENTS : List String :=
  ["explore", "general-purpose", "code-reviewer", "implementation-architect",
   "expert-code-implementer"]

/-- Inner loop of the Levenshtein row update (standard dynamic programming,
structural so that it evaluates). -/
def levGo (ai : Char) : List Char → List Nat → Nat → Nat → List Nat
  | [], _, _, _ => []
  | _, [], _, _ => []
  | bj :: brest, pj :: prest, left, diag =>
      let cur := min (left + 1) (min (pj + 1) (diag + (if ai = bj then 0 else 1)))
      cur :: levGo ai brest prest cur pj

/-- Levenshtein edit distance between two character lists. -/
def levenshtein (a b : List Char) : Nat :=
  let finalRow := a.foldl
    (fun prev ai =>
      match prev with
      | p0 :: prest => (p0 + 1) :: levGo ai b prest (p0 + 1) p0
      | [] => [])
    (List.range (b.length + 1))
  (finalRow.getLast?).getD 0

/-- Modelled from the spec: `findSimilar(node.agent, VALID_AGENTS)` is
referenced but not defined in the source; the spec says unresolved names
trigger a "did you mean" suggestion using edit-distance against known
names.  Candidates within edit distance 2 are suggested.  (The length gate
only skips candidates whose length differs by more than 2; since the edit
distance is at least the length difference it does not change the result.) -/
def findSimilar (name : String) (candidates : List String) : List String :=
  candidates.filter (fun c =>
    if name.data.length + 2 < c.data.length || c.data.length + 2 < name.data.length then
      false
    else levenshtein name.data c.data ≤ 2)

/-- The `node.agent` of a node as it appears in messages and lookups; the
JavaScript value for a node without the field is undefined, which renders
as "undefined". -/
def nodeAgentName (n : GraphNode) : String := n.agent.getD "undefined"

/-- The error message of validateAgents for an unknown agent name. -/
def unknownAgentMsg (name : String) : String :=
  let suggestions := findSimilar name VALID_AGENTS
  "Unknown agent '" ++ name ++ "'. " ++
    "Valid agents: " ++ joinSep ", " VALID_AGENTS ++ ". " ++
    (match suggestions with
     | s0 :: _ => "Did you mean '" ++ s0 ++ "'?"
     | [] => "")

/-- Validation rule 2: every agent node's name must be a known agent; the
first unknown one throws. -/
def validateAgents (g : Graph) : Except String Unit :=
  let rec go : List GraphNode → Except String Unit
    | [] => Except.ok ()
    | n :: ns =>
        if n.kind = NodeKind.agent && !(VALID_AGENTS.contains (nodeAgentName n)) then
          Except.error (unknownAgentMsg (nodeAgentName n))
        else go ns
  go g.nodes

/-- One expansion step of forward reachability: add the target of every edge
whose source is already reached. -/
def reachStep (g : Graph) (s : List Nat) : List Nat :=
  g.edges.foldl
    (fun acc e => if e.fromId ∈ acc && !(e.toId ∈ acc) then acc ++ [e.toId] else acc) s

/-- Iterated expansion.  Running it edges+1 times reaches the fixpoint, so
this computes the same reachable set as the source's recursive DFS `visit`
(only set membership of the result is ever used). -/
def reachSet (g : Graph) : Nat → List Nat → List Nat
  | 0, s => s
  | fuel + 1, s => reachSet g fuel (reachStep g s)

/-- How a node is displayed in the orphan message: `n.agent || n.label`,
with the JavaScript undefined rendering as the empty string under join. -/
def displayName (n : GraphNode) : String :=
  match n.agent with
  | some a => if a = "" then (n.label.getD "") else a
  | none => n.label.getD ""

/-- Validation rule 3: connectivity.  Start nodes are the nodes without
incoming edges; every node must be forward-reachable from them. -/
def validateConnectivity (g : Graph) : Except String Unit :=
  let startNodes := g.nodes.filter (fun n => !(g.edges.any (fun e => e.toId = n.id)))
  if startNodes = [] then
    Except.error "No start node found - workflow has no entry point"
  else
    let reachable := reachSet g (g.edges.length + 1) (startNodes.map (fun n => n.id))
    let orphaned := g.nodes.filter (fun n => !(n.id ∈ reachable))
    if orphaned = [] then Except.ok ()
    else
      Except.error ("Orphaned nodes detected (not reachable from start): " ++
        joinSep ", " (orphaned.map displayName))

/-- The circular-dependency error message: the cycle is the path from the
first occurrence of the revisited node, closed by the node itself. -/
def idxOfNat : List Nat → Nat → Nat
  | [], _ => 0
  | x :: xs, a => if x = a then 0 else idxOfNat xs a + 1

def cycleMsg (path : List Nat) (nodeId : Nat) : String :=
  let cycle := path.drop (idxOfNat path nodeId) ++ [nodeId]
  "Circular dependency detected: " ++ joinSep " -> " (cycle.map showId) ++
    "\nWorkflows cannot have cycles without exit conditions. " ++
    "Use conditional flow to create loops: @try -> step (if failed)~> @try"

mutual

/-- The recursive `visit` of validateNoCycles.  `visiting` is the grey set,
`visited` the black set (threaded through and returned), `path` the call
path.  Only unconditional edges are traversed: a conditioned edge is
skipped entirely. -/
def visitNC (g : Graph) : Nat → List Nat → List Nat → List Nat → Nat →
    Except String (List Nat)
  | 0, _, _, _, _ => Except.error "internal: cycle check out of fuel"
  | fuel + 1, visiting, visited, path, nodeId =>
    if nodeId ∈ visiting then Except.error (cycleMsg path nodeId)
    else if nodeId ∈ visited then Except.ok visited
    else do
      let outgoing := g.edges.filter (fun e => e.fromId = nodeId)
      let visited1 ← visitEdges g fuel (visiting ++ [nodeId]) visited
        (path ++ [nodeId]) outgoing
      Except.ok (visited1 ++ [nodeId])

/-- The edge loop of `visit`: recurse through unconditional edges only
(`if (!edge.condition) visit(edge.to, [...path])`). -/
def visitEdges (g : Graph) : Nat → List Nat → List Nat → List Nat →
    List GraphEdge → Except String (List Nat)
  | 0, _, _, _, _ => Except.error "internal: cycle check out of fuel"
  | _ + 1, _, visited, _, [] => Except.ok visited
  | fuel + 1, visiting, visited, path, e :: es =>
      if e.condition = none then do
        let visited1 ← visitNC g fuel visiting visited path e.toId
        visitEdges g fuel visiting visited1 path es
      else visitEdges g fuel visiting visited path es

end

/-- The outer loop of validateNoCycles over all nodes. -/
def visitAllNC (g : Graph) (fuel : Nat) : List GraphNode → List Nat →
    Except String (List Nat)
  | [], visited => Except.ok visited
  | n :: ns, visited =>
      if n.id ∈ visited then visitAllNC g fuel ns visited
      else do
        let visited1 ← visitNC g fuel [] visited [] n.id
        visitAllNC g fuel ns visited1

/-- Fuel with which validateNoCycles runs its DFS; ample for the depth and
breadth of any traversal of g (each level of recursion consumes one unit
and the depth is bounded by the number of distinct ids). -/
def ncFuel (g : Graph) : Nat :=
  (g.nodes.length + g.edges.length + 1) * (g.edges.length + 2)

/-- Validation rule 4: depth-first cycle detection over unconditional
edges. -/
def validateNoCycles (g : Graph) : Except String Unit := do
  let _ ← visitAllNC g (ncFuel g) g.nodes []
  Except.ok ()

/-- The VALID_CONDITIONS constant. -/
def VALID_CONDITIONS : List String :=
  ["if passed", "if failed", "if all success", "if any success",
   "if all failed", "if any failed"]

/-- `conditionStr.replace(/^\(|\)$/g, '').trim()`: drop one leading open
paren and one trailing close paren, then trim. -/
def stripCondParens (s : String) : String :=
  let l := s.data
  let l1 := match l with
    | '(' :: r => r
    | _ => l
  let l2 := match l1.reverse with
    | ')' :: r => r.reverse
    | _ => l1
  strTrim (String.mk l2)

/-- Validation rule 5: condition well-formedness.  Non-fatal: unknown
condition text only produces a console warning; the collected warning
strings model the console output. -/
def validateConditions (g : Graph) : List String :=
  g.edges.foldl
    (fun ws e =>
      match e.condition with
      | some c =>
          let cond := stripCondParens c
          if VALID_CONDITIONS.contains cond then ws
          else ws ++ ["Custom condition '" ++ cond ++
            "' - will be evaluated from output. Built-in conditions: " ++
            joinSep ", " VALID_CONDITIONS]
      | none => ws) []

/-- The result object of validateGraph. -/
structure VResult where
  valid : Bool
  error : Option String := none
deriving DecidableEq, Repr

/-- validateGraph(graph, tokens): run the checks in order inside one
try/catch; the first check that throws determines the result, later checks
do not run.  The condition check cannot throw (it only warns). -/
def validateGraph (g : Graph) (tokens : List Token) : VResult :=
  match validateBrackets tokens with
  | Except.error e => {valid := false, error := some e}
  | Except.ok _ =>
    match validateAgents g with
    | Except.error e => {valid := false, error := some e}
    | Except.ok _ =>
      match validateConnectivity g with
      | Except.error e => {valid := false, error := some e}
      | Except.ok _ =>
        match validateNoCycles g with
        | Except.error e => {valid := false, error := some e}
        | Except.ok _ =>
          let _warnings := validateConditions g
          {valid := true, error := none}

/-- The full compile-and-validate pipeline on workflow text. -/
def compileAndValidate (workflow : String) : Except String VResult := do
  let tokens ← tokenize workflow
  let ast ← buildAST tokens
  let g := astToGraph ast
  Except.ok (validateGraph g tokens)

/-- An execution output record.  The executor stores
`{result, duration, success}` on success, `{error, duration, success}` on
failure, and `{success, results, duration}` at a merge; absent fields keep
their defaults.  Payload values are modelled as strings. -/
structure Output where
  success : Bool
  result : Option String := none
  results : List (Option String) := []
  error : Option String := none
  duration : Nat := 0
deriving DecidableEq, Repr

/-- The execution state relevant to the claims: the graph (whose nodes carry
their status), the bookkeeping id lists and the outputs map. -/
structure ExecState where
  graph : Graph
  current : List Nat := []
  completed : List Nat := []
  failed : List Nat := []
  skipped : List Nat := []
  outputs : List (Nat × Output) := []
deriving DecidableEq, Repr

/-- `state.execution.outputs[id]` (undefined is none). -/
def lookupOutput (st : ExecState) (id : Nat) : Option Output :=
  (st.outputs.find? (fun p => p.1 = id)).map (fun p => p.2)

/-- `graph.nodes.find(n => n.id === id)`. -/
def findNodeById (nodes : List GraphNode) (id : Nat) : Option GraphNode :=
  nodes.find? (fun n => n.id = id)

/-- Lower-casing (JavaScript toLowerCase on the ASCII texts in play). -/
def strToLower (s : String) : String := String.mk (s.data.map Char.toLower)

/-- `haystack.includes(needle)` on character lists. -/
def containsSub : List Char → List Char → Bool
  | [], needle => needle.isEmpty
  | hay@(_ :: t), needle => needle.isPrefixOf hay || containsSub t needle

/-- A double-quoted JSON string (escaping is irrelevant for the substring
heuristics the serialization feeds). -/
def jsonStr (s : String) : String := "\"" ++ s ++ "\""

/-- JSON.stringify of an output record: the fields the executor stored, in
insertion order. -/
def serializeOutput (o : Output) : String :=
  let parts :=
    (match o.result with
     | some r => ["\"result\":" ++ jsonStr r]
     | none => []) ++
    (match o.error with
     | some e => ["\"error\":" ++ jsonStr e]
     | none => []) ++
    (if o.results.isEmpty then [] else
      ["\"results\":[" ++
        joinSep "," (o.results.map (fun r =>
          match r with
          | some v => jsonStr v
          | none => "null")) ++ "]"]) ++
    ["\"duration\":" ++ toString o.duration,
     "\"success\":" ++ (if o.success then "true" else "false")]
  "\x7b" ++ joinSep "," parts ++ "\x7d"

/-- evaluateCustomCondition(condition, output): keyword containment against
the serialized output, defaulting to the success flag.  A missing output
(the JavaScript undefined) makes JSON.stringify(output).toLowerCase() throw. -/
def evaluateCustomCondition (condition : String) (output : Option Output) :
    Except String Bool :=
  match output with
  | none => Except.error "TypeError: Cannot read properties of undefined"
  | some o =>
    let outputStr := strToLower (serializeOutput o)
    let conditionLower := strToLower condition
    if ("if contains ".data).isPrefixOf conditionLower.data then
      Except.ok (containsSub outputStr.data (conditionLower.data.drop 12))
    else if ("if not contains ".data).isPrefixOf conditionLower.data then
      Except.ok (!containsSub outputStr.data (conditionLower.data.drop 16))
    else
      Except.ok o.success

/-- evaluateCondition(conditionStr, output).  The built-in single-source
predicates read output.success; the aggregate predicates call
outputs.every/some, and since the executor never stores an array-valued
output that call always throws (a missing output throws on the property
access already). -/
def evaluateCondition (conditionStr : String) (output : Option Output) :
    Except String Bool :=
  let condition := stripCondParens conditionStr
  if condition = "if passed" then
    match output with
    | none => Except.error "TypeError: Cannot read properties of undefined"
    | some o => Except.ok o.success
  else if condition = "if failed" then
    match output with
    | none => Except.error "TypeError: Cannot read properties of undefined"
    | some o => Except.ok (!o.success)
  else if condition = "if all success" || condition = "if any success" ||
      condition = "if all failed" || condition = "if any failed" then
    match output with
    | none => Except.error "TypeError: Cannot read properties of undefined"
    | some _ => Except.error "TypeError: outputs.every is not a function"
  else
    evaluateCustomCondition condition output

/-- Array.prototype.every with a possibly-throwing callback: stop at the
first false or the first exception. -/
def everyE {α : Type} (f : α → Except String Bool) : List α → Except String Bool
  | [] => Except.ok true
  | x :: xs => do
      let b ← f x
      if b then everyE f xs else Except.ok false

/-- One incoming edge's check inside findExecutableNodes: the source node
must be completed and a condition, when present, must evaluate true against
the source's captured output.  (A dangling edge makes `sourceNode.status`
throw.) -/
def edgeSatisfied (st : ExecState) (e : GraphEdge) : Except String Bool :=
  match findNodeById st.graph.nodes e.fromId with
  | none => Except.error "TypeError: Cannot read properties of undefined"
  | some src =>
      if src.status ≠ Status.completed then Except.ok false
      else
        match e.condition with
        | some c => evaluateCondition c (lookupOutput st e.fromId)
        | none => Except.ok true

/-- The node loop of findExecutableNodes. -/
def findExecGo (st : ExecState) : List GraphNode → Except String (List GraphNode)
  | [] => Except.ok []
  | n :: ns =>
      if n.status ≠ Status.pending then findExecGo st ns
      else
        let incoming := st.graph.edges.filter (fun e => e.toId = n.id)
        if incoming = [] then do
          let rest ← findExecGo st ns
          Except.ok (n :: rest)
        else do
          let sat ← everyE (edgeSatisfied st) incoming
          let rest ← findExecGo st ns
          if sat then Except.ok (n :: rest) else Except.ok rest

/-- findExecutableNodes(state): the pending nodes whose incoming edges are
all satisfied, in node order. -/
def findExecutableNodes (st : ExecState) : Except String (List GraphNode) :=
  findExecGo st st.graph.nodes

/-- The ready-set characterization in the words of the spec (C2): an edge is
satisfied if its source is completed or skipped and, if the edge carries a
condition, the condition evaluates true against the source's captured
output.  Kept for comparison with findExecutableNodes. -/
def edgeSatisfiedSpec (st : ExecState) (e : GraphEdge) : Bool :=
  match findNodeById st.graph.nodes e.fromId with
  | none => false
  | some src =>
      (src.status = Status.completed || src.status = Status.skipped) &&
      (match e.condition with
       | some c =>
           (match evaluateCondition c (lookupOutput st e.fromId) with
            | Except.ok true => true
            | _ => false)
       | none => true)

/-- The ready set in the words of the spec (C2). -/
def readySpec (st : ExecState) : List GraphNode :=
  st.graph.nodes.filter (fun n =>
    n.status = Status.pending &&
    (st.graph.edges.filter (fun e => e.toId = n.id)).all (edgeSatisfiedSpec st))

/-- The corrected ready-set characterization: identical to the spec's words
except that only a completed source satisfies an edge (a skipped source
does not). -/
def edgeSatisfiedAmended (st : ExecState) (e : GraphEdge) : Bool :=
  match findNodeById st.graph.nodes e.fromId with
  | none => false
  | some src =>
      src.status = Status.completed &&
      (match e.condition with
       | some c =>
           (match evaluateCondition c (lookupOutput st e.fromId) with
            | Except.ok true => true
            | _ => false)
       | none => true)

/-- The ready set under the corrected characterization. -/
def readyAmended (st : ExecState) : List GraphNode :=
  st.graph.nodes.filter (fun n =>
    n.status = Status.pending &&
    (st.graph.edges.filter (fun e => e.toId = n.id)).all (edgeSatisfiedAmended st))

/-- isReadyToMerge(mergeNode, state): every incoming branch's source is
completed or skipped. -/
def isReadyToMerge (mergeNode : GraphNode) (st : ExecState) : Except String Bool :=
  let incoming := st.graph.edges.filter (fun e => e.toId = mergeNode.id)
  everyE
    (fun e =>
      match findNodeById st.graph.nodes e.fromId with
      | none => Except.error "TypeError: Cannot read properties of undefined"
      | some src =>
          Except.ok (src.status = Status.completed || src.status = Status.skipped))
    incoming

/-- mergeBranchOutputs(outputs): success is the conjunction of the branch
successes, results the list of branch results in input order.  (The
duration of an empty merge is modelled as 0; Math.max() of no arguments
never occurs on graphs the compiler produces.) -/
def mergeBranchOutputs (outputs : List Output) : Output :=
  { success := outputs.all (fun o => o.success),
    results := outputs.map (fun o => o.result),
    duration := (outputs.map (fun o => o.duration)).foldl max 0 }

/-- Update the status of the first node carrying the id (the JavaScript
code mutates the node object in place). -/
def setNodeStatusFirst : List GraphNode → Nat → Status → List GraphNode
  | [], _, _ => []
  | n :: ns, id, st =>
      if n.id = id then {n with status := st} :: ns
      else n :: setNodeStatusFirst ns id st

/-- `state.execution.outputs[id] = o` on the association list. -/
def setOutput (outs : List (Nat × Output)) (id : Nat) (o : Output) :
    List (Nat × Output) :=
  if outs.any (fun p => p.1 = id) then
    outs.map (fun p => if p.1 = id then (id, o) else p)
  else outs ++ [(id, o)]

/-- Collect a list of options into a list exactly when all are present. -/
def allSome {α : Type} : List (Option α) → Option (List α)
  | [] => some []
  | some x :: xs => (allSome xs).map (fun l => x :: l)
  | none :: _ => none

/-- executeMerge(node, state): collect the branch outputs (in incoming-edge
order), merge them, mark the node completed and store the merged output.  A
branch without a stored output makes mergeBranchOutputs throw on the
property access. -/
def executeMerge (node : GraphNode) (st : ExecState) : Except String ExecState :=
  let incoming := st.graph.edges.filter (fun e => e.toId = node.id)
  let branchOutputs := incoming.map (fun e => lookupOutput st e.fromId)
  match allSome branchOutputs with
  | none => Except.error "TypeError: Cannot read properties of undefined"
  | some outs =>
      let merged := mergeBranchOutputs outs
      Except.ok
        { st with
          graph := {st.graph with
            nodes := setNodeStatusFirst st.graph.nodes node.id Status.completed},
          completed := st.completed ++ [node.id],
          outputs := setOutput st.outputs node.id merged }

/-- The downstream closure computed by resetFromNode's visitDownstream: the
node itself and everything reachable from it over the graph's edges
(conditions included).  The iterated expansion computes the same set as the
source's recursive DFS; by construction the list has no duplicates. -/
def downstreamSet (g : Graph) (startId : Nat) : List Nat :=
  reachSet g (g.edges.length + 1) [startId]

/-- `delete state.execution.outputs[id]`. -/
def eraseOutput (outs : List (Nat × Output)) (id : Nat) : List (Nat × Output) :=
  outs.filter (fun p => p.1 ≠ id)

/-- The body of resetFromNode's final loop for one id of the reset set: a
node that exists and is not a checkpoint goes back to pending, leaves the
completed/failed lists, and loses its stored output; checkpoint nodes and
unknown ids are untouched. -/
def resetOneId (st : ExecState) (id : Nat) : ExecState :=
  match findNodeById st.graph.nodes id with
  | some n =>
      if n.kind ≠ NodeKind.checkpoint then
        { st with
          graph := {st.graph with
            nodes := setNodeStatusFirst st.graph.nodes id Status.pending},
          completed := st.completed.filter (fun cid => cid ≠ id),
          failed := st.failed.filter (fun fid => fid ≠ id),
          outputs := eraseOutput st.outputs id }
      else st
  | none => st

/-- resetFromNode(node, state): reset the node and its downstream closure.
The iteration order over the reset set differs from the JavaScript Set's
insertion order, but the per-id updates touch disjoint ids, so the result
is the same. -/
def resetFromNode (node : GraphNode) (st : ExecState) : ExecState :=
  (downstreamSet st.graph node.id).foldl resetOneId st

/-- JavaScript regex class \w. -/
def wordChar (c : Char) : Bool := c.isAlpha || c.isDigit || c = '_'

/-- Literal brace characters (kept out of string literals). -/
def lbrace : Char := Char.ofNat 123

def rbrace : Char := Char.ofNat 125

/-- A fragment of an instruction: a literal character or a well-formed
placeholder \x7bname\x7d. -/
inductive Piece where
  | lit (c : Char)
  | ph (name : String)
deriving DecidableEq, Repr

/-- Scan an instruction into pieces.  A placeholder is an open brace, a
nonempty run of word characters and a close brace — exactly the matches of
the /\x7b(\w+)\x7d/g regex of interpolateVariables; any other character is
literal text. -/
def scanPieces : Nat → List Char → List Piece
  | 0, _ => []
  | _ + 1, [] => []
  | fuel + 1, c :: rest =>
      if c = lbrace then
        let run := rest.takeWhile wordChar
        let after := rest.dropWhile wordChar
        match run, after with
        | _ :: _, c2 :: tail =>
            if c2 = rbrace then Piece.ph (String.mk run) :: scanPieces fuel tail
            else Piece.lit c :: scanPieces fuel rest
        | _, _ => Piece.lit c :: scanPieces fuel rest
      else Piece.lit c :: scanPieces fuel rest

/-- The variable store: name to value; a none value is the JavaScript null
(the name exists but has no value yet). -/
abbrev VarStore : Type := List (String × Option String)

/-- Object.keys(variables). -/
def varKeys (vars : VarStore) : List String := vars.map (fun p => p.1)

/-- The truncation of long values: substring(0, 2000) plus the visible
marker. -/
def truncateValue (v : String) : String :=
  if v.data.length > 2000 then
    String.mk (v.data.take 2000) ++ "\n\n... (truncated)"
  else v

/-- The error for a name that exists with a null value. -/
def nullVariableMsg (name : String) : String :=
  "Variable '" ++ name ++ "' is referenced but has no value yet. " ++
    "Make sure the agent that produces this variable runs first."

/-- The error for a name missing from the store: it names the variable and
lists the currently available variable names (or 'none'). -/
def unknownVariableMsg (name : String) (vars : VarStore) : String :=
  "Unknown variable '" ++ String.mk [lbrace] ++ name ++ String.mk [rbrace] ++
    "' in instruction. Available variables: " ++
    (let ks := joinSep ", " (varKeys vars)
     if ks = "" then "none" else ks)

/-- The replacement callback of interpolateVariables for one placeholder. -/
def resolveVar (vars : VarStore) (name : String) : Except String String :=
  match vars.find? (fun p => p.1 = name) with
  | some (_, some v) => Except.ok (truncateValue v)
  | some (_, none) => Except.error (nullVariableMsg name)
  | none => Except.error (unknownVariableMsg name vars)

/-- Fold the pieces back into the interpolated string; the leftmost failing
placeholder throws, as the JavaScript replace callback does. -/
def interpPieces (vars : VarStore) : List Piece → Except String String
  | [] => Except.ok ""
  | Piece.lit c :: rest => do
      let s ← interpPieces vars rest
      Except.ok (String.mk [c] ++ s)
  | Piece.ph nm :: rest => do
      let v ← resolveVar vars nm
      let s ← interpPieces vars rest
      Except.ok (v ++ s)

/-- interpolateVariables(instruction, variables). -/
def interpolateVariables (instruction : String) (vars : VarStore) :
    Except String String :=
  interpPieces vars (scanPieces (instruction.data.length + 1) instruction.data)

/-- The placeholder names among a list of pieces, in order. -/
def pieceNames (pieces : List Piece) : List String :=
  pieces.filterMap
    (fun p =>
      match p with
      | Piece.ph nm => some nm
      | Piece.lit _ => none)

/-- The placeholder names of an instruction, in order. -/
def placeholderNames (instruction : String) : List String :=
  pieceNames (scanPieces (instruction.data.length + 1) instruction.data)

/-- An agent AST leaf. -/
def mkAgentAST (p : String × Option String) : ASTNode := ASTNode.agent p.1 p.2

/-- The operator-separated tail of a chain of bare steps. -/
def opTail (op : Token) : List String → List Token
  | [] => []
  | n :: rest => op :: Token.agent n :: opTail op rest

/-- The token stream of n bare steps joined by one operator (`a->b->c` or
`a||b||c`). -/
def chainTokens (op : Token) : List String → List Token
  | [] => []
  | n :: rest => Token.agent n :: opTail op rest

/-- The repeated left-fold the parser performs on a sequential chain. -/
def foldSeqAgents (left : ASTNode) (names : List String) : ASTNode :=
  names.foldl (fun l nm => mergeSeq l (ASTNode.agent nm none)) left

/-- The repeated left-fold the parser performs on a parallel chain. -/
def foldParAgents (left : ASTNode) (names : List String) : ASTNode :=
  names.foldl (fun l nm => mergePar l (ASTNode.agent nm none)) left

/-- The nodes created when a list of agent steps is lowered starting at
counter c. -/
def agentNodesFrom (c : Nat) : List (String × Option String) → List GraphNode
  | [] => []
  | (nm, ins) :: rest =>
      {id := c, kind := NodeKind.agent, agent := some nm, instruction := ins} ::
        agentNodesFrom (c + 1) rest

/-- The k chain edges p→c→c+1→...→c+k-1 created when k agent steps are
lowered in sequence after predecessor p. -/
def chainEdgesFrom (p c : Nat) : Nat → List GraphEdge
  | 0 => []
  | k + 1 => {fromId := p, toId := c} :: chainEdgesFrom c (c + 1) k

/-- The id a lowered sequence of k agent steps hands back: the predecessor
for k = 0, the last created node otherwise. -/
def lastIdFrom (p c : Nat) : Nat → Nat
  | 0 => p
  | k + 1 => c + k

/-- The fan-out edges of a parallel entry node to branches c..c+k-1. -/
def entryEdgesFrom (entryId c : Nat) (k : Nat) : List GraphEdge :=
  (List.range' c k).map (fun i => {fromId := entryId, toId := i})

/-- A three-node graph whose cycle node-1 → node-2 → node-1 closes with a
conditioned edge carrying the text ct; the edge node-1 → node-2 inside the
cycle is unconditional. -/
def mixedEscapeCycleGraph (ct : String) : Graph :=
  { nodes := [{id := 0, kind := NodeKind.agent, agent := some "explore"},
              {id := 1, kind := NodeKind.agent, agent := some "general-purpose"},
              {id := 2, kind := NodeKind.agent, agent := some "code-reviewer"}],
    edges := [{fromId := 0, toId := 1},
              {fromId := 1, toId := 2},
              {fromId := 2, toId := 1, condition := some ct}] }

/-- A two-node cycle all of whose edges are unconditional. -/
def uncondCycleGraph : Graph :=
  { nodes := [{id := 0, kind := NodeKind.agent, agent := some "explore"},
              {id := 1, kind := NodeKind.agent, agent := some "general-purpose"}],
    edges := [{fromId := 0, toId := 1}, {fromId := 1, toId := 0}] }

/-- The first failure among an ordered list of check results. -/
def firstErr : List (Except String Unit) → Option String
  | [] => none
  | Except.error e :: _ => some e
  | Except.ok _ :: rest => firstErr rest

/-- Whether an exception-carrying boolean is a definite true. -/
def isOkTrue (r : Except String Bool) : Bool :=
  match r with
  | Except.ok true => true
  | _ => false

/-- Whether resetFromNode's final loop actually resets a given id: the id
must carry a node of the graph and that node must not be a checkpoint. -/
def resettableId (st : ExecState) (id : Nat) : Bool :=
  match findNodeById st.graph.nodes id with
  | some n => n.kind ≠ NodeKind.checkpoint
  | none => false

/-- The aggregate effect of resetFromNode's final loop over all ids
satisfying P: such nodes go back to pending, leave the completed/failed
lists and lose their stored output. -/
def bulkReset (st : ExecState) (P : Nat → Bool) : ExecState :=
  { st with
    graph := {st.graph with
      nodes := st.graph.nodes.map (fun n =>
        if P n.id then {n with status := Status.pending} else n)},
    completed := st.completed.filter (fun i => !P i),
    failed := st.failed.filter (fun i => !P i),
    outputs := st.outputs.filter (fun p => !P p.1) }

/-- Two edges that agree on endpoints and on whether they carry a condition;
the cycle detector never reads anything else of an edge. -/
def edgeSim (e e2 : GraphEdge) : Prop :=
  e.fromId = e2.fromId ∧ e.toId = e2.toId ∧ (e.condition = none ↔ e2.condition = none)

/-- The compile pipeline up to the graph. -/
def compileWorkflow (w : String) : Except String Graph := do
  let tokens ← tokenize w
  let ast ← buildAST tokens
  Except.ok (astToGraph ast)

end Orkestr

namespace Orkestr

/-- C1: the spec claims that compiling and validating `a (if failed)~> b -> a`
succeeds (conditioned cycle accepted) while `a -> b -> a` fails validation as
an unconditional cycle.  The code does neither: lowering allocates a fresh
node for every occurrence of a name, so `a -> b -> a` becomes the acyclic
three-node chain node-0 → node-1 → node-2 on which validateNoCycles finds no
cycle, and validateGraph rejects both workflow texts with the unknown-agent
error for 'a' instead.  With registered agent names the same chain shape —
the spec's unconditional cycle — validates successfully. -/
theorem C1_unconditional_cycle_not_rejected :
    compileWorkflow "a -> b -> a" =
      Except.ok
        { nodes := [{id := 0, kind := NodeKind.agent, agent := some "a"},
                    {id := 1, kind := NodeKind.agent, agent := some "b"},
                    {id := 2, kind := NodeKind.agent, agent := some "a"}],
          edges := [{fromId := 0, toId := 1}, {fromId := 1, toId := 2}] } ∧
    validateNoCycles
      { nodes := [{id := 0, kind := NodeKind.agent, agent := some "a"},
                  {id := 1, kind := NodeKind.agent, agent := some "b"},
                  {id := 2, kind := NodeKind.agent, agent := some "a"}],
        edges := [{fromId := 0, toId := 1}, {fromId := 1, toId := 2}] } =
      Except.ok () ∧
    compileAndValidate "a -> b -> a" =
      Except.ok {valid := false, error := some (unknownAgentMsg "a")} ∧
    compileAndValidate "a (if failed)~> b -> a" =
      Except.ok {valid := false, error := some (unknownAgentMsg "a")} ∧
    compileAndValidate "explore -> general-purpose -> explore" =
      Except.ok {valid := true, error := none} := by
  refine ⟨by decide, by decide, by decide, by decide, by decide⟩

/-- C2 counterexample: in a state where the only predecessor of a pending
node is skipped, the spec's ready set (completed or skipped sources satisfy
an edge) contains the pending node, but findExecutableNodes — which accepts
only completed sources — returns the empty ready set. -/
theorem C2_counterexample :
    readySpec
      { graph := { nodes := [{id := 0, kind := NodeKind.agent,
                              agent := some "explore", status := Status.skipped},
                             {id := 1, kind := NodeKind.agent,
                              agent := some "general-purpose", status := Status.pending}],
                   edges := [{fromId := 0, toId := 1}] } } =
      [{id := 1, kind := NodeKind.agent, agent := some "general-purpose",
        status := Status.pending}] ∧
    findExecutableNodes
      { graph := { nodes := [{id := 0, kind := NodeKind.agent,
                              agent := some "explore", status := Status.skipped},
                             {id := 1, kind := NodeKind.agent,
                              agent := some "general-purpose", status := Status.pending}],
                   edges := [{fromId := 0, toId := 1}] } } =
      Except.ok [] := by
  exact ⟨by decide, by decide⟩

/-- C4 counterexample: a graph containing the cycle node-1 → node-2 → node-1
whose edge node-1 → node-2 carries no condition.  The claim says a cycle
with an unconditional edge inside is a fatal validation error; the code
accepts the graph, because the cycle's one conditioned edge is never
traversed by the detector. -/
theorem C4_counterexample :
    ({fromId := 1, toId := 2, condition := none} : GraphEdge) ∈
      (mixedEscapeCycleGraph "(if failed)").edges ∧
    ({fromId := 2, toId := 1, condition := some "(if failed)"} : GraphEdge) ∈
      (mixedEscapeCycleGraph "(if failed)").edges ∧
    validateNoCycles (mixedEscapeCycleGraph "(if failed)") = Except.ok () ∧
    validateGraph (mixedEscapeCycleGraph "(if failed)") [] =
      {valid := true, error := none} := by
  refine ⟨by decide, by decide, by decide, by decide⟩

/-- C5 counterexample: a graph that fails the unknown-step check (node 'foo')
and independently fails the connectivity check (the two-node island node-1,
node-2 is unreachable from the start node).  validateGraph reports only the
unknown-agent failure; the connectivity failure is absent from the result,
so the result does not aggregate the failures of every failing check. -/
theorem C5_counterexample :
    validateAgents
      { nodes := [{id := 0, kind := NodeKind.agent, agent := some "explore"},
                  {id := 1, kind := NodeKind.agent, agent := some "foo"},
                  {id := 2, kind := NodeKind.agent, agent := some "code-reviewer"}],
        edges := [{fromId := 1, toId := 2}, {fromId := 2, toId := 1, condition := some "(if failed)"}] } =
      Except.error (unknownAgentMsg "foo") ∧
    validateConnectivity
      { nodes := [{id := 0, kind := NodeKind.agent, agent := some "explore"},
                  {id := 1, kind := NodeKind.agent, agent := some "foo"},
                  {id := 2, kind := NodeKind.agent, agent := some "code-reviewer"}],
        edges := [{fromId := 1, toId := 2}, {fromId := 2, toId := 1, condition := some "(if failed)"}] } =
      Except.error
        "Orphaned nodes detected (not reachable from start): foo, code-reviewer" ∧
    validateGraph
      { nodes := [{id := 0, kind := NodeKind.agent, agent := some "explore"},
                  {id := 1, kind := NodeKind.agent, agent := some "foo"},
                  {id := 2, kind := NodeKind.agent, agent := some "code-reviewer"}],
        edges := [{fromId := 1, toId := 2}, {fromId := 2, toId := 1, condition := some "(if failed)"}] } [] =
      {valid := false, error := some (unknownAgentMsg "foo")} ∧
    unknownAgentMsg "foo" ≠
      "Orphaned nodes detected (not reachable from start): foo, code-reviewer" := by
  refine ⟨by decide, by decide, by decide, by decide⟩

/-- C6 counterexample: jumping back to the completed first node of the chain
node-0 → checkpoint node-1 → node-2 resets node-0 and node-2 to pending and
clears their outputs, but the checkpoint node-1 — although downstream of the
jump target — keeps its completed status and its stored output, contrary to
the claim that checkpoint nodes are reset too. -/
theorem C6_counterexample :
    resetFromNode
      {id := 0, kind := NodeKind.agent, agent := some "explore", status := Status.completed}
      { graph := { nodes := [{id := 0, kind := NodeKind.agent, agent := some "explore",
                              status := Status.completed},
                             {id := 1, kind := NodeKind.checkpoint, label := some "@cp",
                              status := Status.completed},
                             {id := 2, kind := NodeKind.agent, agent := some "general-purpose",
                              status := Status.completed}],
                   edges := [{fromId := 0, toId := 1}, {fromId := 1, toId := 2}] },
        completed := [0, 1, 2],
        outputs := [(0, {success := true, result := some "r0"}),
                    (1, {success := true, result := some "r1"}),
                    (2, {success := true, result := some "r2"})] } =
      { graph := { nodes := [{id := 0, kind := NodeKind.agent, agent := some "explore",
                              status := Status.pending},
                             {id := 1, kind := NodeKind.checkpoint, label := some "@cp",
                              status := Status.completed},
                             {id := 2, kind := NodeKind.agent, agent := some "general-purpose",
                              status := Status.pending}],
                   edges := [{fromId := 0, toId := 1}, {fromId := 1, toId := 2}] },
        completed := [1],
        outputs := [(1, {success := true, result := some "r1"})] } := by
  decide

/-- C8 counterexample: tokenize does not fail on an unterminated quote or an
unterminated condition.  The unterminated instruction becomes an
agent-with-instruction token holding the rest of the input, and the
unterminated `(if ` condition becomes a condition token holding the rest of
the input with a synthesized closing parenthesis. -/
theorem C8_counterexample :
    tokenize "a \"oops" =
      Except.ok [Token.agent "a", Token.agentWithInstruction "" "oops"] ∧
    tokenize "x (if failed" =
      Except.ok [Token.agent "x", Token.condition "(if failed)"] := by
  exact ⟨by decide, by decide⟩

end Orkestr

namespace Orkestr

theorem bindE_error {α β : Type} (msg : String) (k : α → Except String β) :
    (Except.error msg >>= k) = Except.error msg := rfl

theorem bindE_ok {α β : Type} (a : α) (k : α → Except String β) :
    (Except.ok a >>= k) = k a := rfl

theorem everyE_eq_all {α : Type} (f : α → Except String Bool) :
    ∀ (es : List α) (b : Bool), everyE f es = Except.ok b →
      b = es.all (fun e => isOkTrue (f e)) := by
  intro es
  induction es with
  | nil =>
    intro b h
    have h2 : (Except.ok true : Except String Bool) = Except.ok b := h
    injection h2 with h3
    simp [← h3]
  | cons e es ih =>
    intro b h
    simp only [everyE] at h
    cases hf : f e with
    | error msg =>
      rw [hf, bindE_error] at h
      exact absurd h (by simp)
    | ok b0 =>
      rw [hf, bindE_ok] at h
      cases b0 with
      | true =>
        rw [if_pos rfl] at h
        rw [List.all_cons]
        have : isOkTrue (f e) = true := by rw [hf]; rfl
        rw [this, Bool.true_and]
        exact ih b h
      | false =>
        rw [if_neg (by simp)] at h
        have h2 : (Except.ok false : Except String Bool) = Except.ok b := h
        injection h2 with h3
        rw [List.all_cons]
        have : isOkTrue (f e) = false := by rw [hf]; rfl
        rw [this, Bool.false_and, ← h3]

theorem edgeSatisfied_isOkTrue (st : ExecState) (e : GraphEdge) :
    isOkTrue (edgeSatisfied st e) = edgeSatisfiedAmended st e := by
  unfold edgeSatisfied edgeSatisfiedAmended
  cases hf : findNodeById st.graph.nodes e.fromId with
  | none => rfl
  | some src =>
    dsimp only
    by_cases hs : src.status = Status.completed
    · rw [if_neg (show ¬(src.status ≠ Status.completed) by simp [hs])]
      cases hc : e.condition with
      | none => simp [hs, isOkTrue]
      | some c =>
        simp only [hs, decide_eq_true_eq, Bool.true_and]
        simp only [decide_true_eq_true]
        cases hev : evaluateCondition c (lookupOutput st e.fromId) with
        | error msg => rfl
        | ok b => cases b <;> rfl
    · rw [if_pos (show src.status ≠ Status.completed from hs)]
      simp [hs, isOkTrue]

theorem findExecGo_ok (st : ExecState) :
    ∀ (ns : List GraphNode) (l : List GraphNode), findExecGo st ns = Except.ok l →
      l = ns.filter (fun n =>
        n.status = Status.pending &&
        (st.graph.edges.filter (fun e => e.toId = n.id)).all (edgeSatisfiedAmended st)) := by
  intro ns
  induction ns with
  | nil =>
    intro l h
    have h2 : (Except.ok [] : Except String (List GraphNode)) = Except.ok l := h
    injection h2 with h3
    rw [← h3]
    rfl
  | cons n ns ih =>
    intro l h
    simp only [findExecGo] at h
    by_cases hp : n.status = Status.pending
    · rw [if_neg (by simp [hp])] at h
      by_cases hin : st.graph.edges.filter (fun e => e.toId = n.id) = []
      · rw [if_pos hin] at h
        cases hrest : findExecGo st ns with
        | error msg => rw [hrest, bindE_error] at h; exact absurd h (by simp)
        | ok rest =>
          rw [hrest, bindE_ok] at h
          have h2 : (Except.ok (n :: rest) : Except String (List GraphNode)) = Except.ok l := h
          injection h2 with h3
          rw [← h3, List.filter_cons, if_pos (by rw [hin]; simp [hp]), ih rest hrest]
      · rw [if_neg hin] at h
        cases hev : everyE (edgeSatisfied st) (st.graph.edges.filter (fun e => e.toId = n.id)) with
        | error msg => rw [hev, bindE_error] at h; exact absurd h (by simp)
        | ok sat =>
          rw [hev, bindE_ok] at h
          cases hrest : findExecGo st ns with
          | error msg => rw [hrest, bindE_error] at h; exact absurd h (by simp)
          | ok rest =>
            rw [hrest, bindE_ok] at h
            have hsat := everyE_eq_all (edgeSatisfied st) _ sat hev
            have hall : (st.graph.edges.filter (fun e => e.toId = n.id)).all
                (fun e => isOkTrue (edgeSatisfied st e)) =
                (st.graph.edges.filter (fun e => e.toId = n.id)).all
                (edgeSatisfiedAmended st) := by
              simp only [edgeSatisfied_isOkTrue]
            rw [hall] at hsat
            cases sat with
            | true =>
              rw [if_pos rfl] at h
              have h2 : (Except.ok (n :: rest) : Except String (List GraphNode)) = Except.ok l := h
              injection h2 with h3
              rw [← h3, List.filter_cons, if_pos (by simp [hp, ← hsat]), ih rest hrest]
            | false =>
              rw [if_neg (by simp)] at h
              have h2 : (Except.ok rest : Except String (List GraphNode)) = Except.ok l := h
              injection h2 with h3
              rw [← h3, List.filter_cons, if_neg (by simp [hp, ← hsat]), ih rest hrest]
    · rw [if_pos (by simp [hp])] at h
      rw [List.filter_cons, if_neg (by simp [hp]), ih l h]
/-- C2 amended: whenever findExecutableNodes returns a ready set, that set
consists exactly of the pending nodes all of whose incoming edges are
satisfied, where an edge is satisfied only if its source node's status is
completed — a skipped source does not satisfy an edge — and, when the edge
carries a condition, that condition evaluates to true against the source's
captured output. -/
theorem C2_ready_set_amended (st : ExecState) (l : List GraphNode)
    (h : findExecutableNodes st = Except.ok l) : l = readyAmended st := by
  unfold findExecutableNodes at h
  unfold readyAmended
  exact findExecGo_ok st st.graph.nodes l h

/-- C2 witness: the amended characterization instantiated on a two-node
state whose conditioned edge is satisfied by a completed source. -/
theorem C2_witness :
    [({id := 1, kind := NodeKind.agent, agent := some "general-purpose",
       status := Status.pending} : GraphNode)] =
    readyAmended
      { graph := { nodes := [{id := 0, kind := NodeKind.agent, agent := some "explore",
                              status := Status.completed},
                             {id := 1, kind := NodeKind.agent, agent := some "general-purpose",
                              status := Status.pending}],
                   edges := [{fromId := 0, toId := 1, condition := some "(if failed)"}] },
        outputs := [(0, {success := false, error := some "boom"})] } :=
  C2_ready_set_amended
    { graph := { nodes := [{id := 0, kind := NodeKind.agent, agent := some "explore",
                            status := Status.completed},
                           {id := 1, kind := NodeKind.agent, agent := some "general-purpose",
                            status := Status.pending}],
                 edges := [{fromId := 0, toId := 1, condition := some "(if failed)"}] },
      outputs := [(0, {success := false, error := some "boom"})] }
    [{id := 1, kind := NodeKind.agent, agent := some "general-purpose",
      status := Status.pending}]
    (by decide)

end Orkestr

namespace Orkestr

theorem filter_edgeSim (i : Nat) :
    ∀ (es es2 : List GraphEdge), List.Forall₂ edgeSim es es2 →
      List.Forall₂ edgeSim (es.filter (fun e => e.fromId = i))
        (es2.filter (fun e => e.fromId = i)) := by
  intro es es2 h
  induction h with
  | nil => exact List.Forall₂.nil
  | @cons a b as bs he _ ih =>
    have hf := he.1
    simp only [List.filter_cons, hf]
    by_cases hb : b.fromId = i
    · rw [if_pos (by simp [hb]), if_pos (by simp [hb])]
      exact List.Forall₂.cons he ih
    · rw [if_neg (by simp [hb]), if_neg (by simp [hb])]
      exact ih

theorem visitNC_sim :
    ∀ (fuel : Nat) (g g2 : Graph), List.Forall₂ edgeSim g.edges g2.edges →
      (∀ vis vtd path id, visitNC g fuel vis vtd path id =
        visitNC g2 fuel vis vtd path id) ∧
      (∀ vis vtd path es es2, List.Forall₂ edgeSim es es2 →
        visitEdges g fuel vis vtd path es = visitEdges g2 fuel vis vtd path es2) := by
  intro fuel
  induction fuel with
  | zero => exact fun g g2 _ => ⟨fun _ _ _ _ => rfl, fun _ _ _ _ _ _ => rfl⟩
  | succ f ih =>
    intro g g2 h
    constructor
    · intro vis vtd path id
      simp only [visitNC]
      by_cases h1 : id ∈ vis
      · rw [if_pos h1, if_pos h1]
      · rw [if_neg h1, if_neg h1]
        by_cases h2 : id ∈ vtd
        · rw [if_pos h2, if_pos h2]
        · rw [if_neg h2, if_neg h2]
          have hout := filter_edgeSim id g.edges g2.edges h
          have heq := (ih g g2 h).2 (vis ++ [id]) vtd (path ++ [id]) _ _ hout
          rw [heq]
    · intro vis vtd path es es2 hes
      cases hes with
      | nil => rfl
      | @cons a b as bs he hrest =>
        simp only [visitEdges]
        obtain ⟨_, ht, hc⟩ := he
        by_cases hna : a.condition = none
        · rw [if_pos hna, if_pos (hc.mp hna), ht, (ih g g2 h).1 vis vtd path b.toId]
          exact congrArg (Except.bind _)
            (funext fun v1 => (ih g g2 h).2 vis v1 path as bs hrest)
        · rw [if_neg hna, if_neg (fun hb => hna (hc.mpr hb))]
          exact (ih g g2 h).2 vis vtd path as bs hrest

theorem visitAllNC_sim (fuel : Nat) (g g2 : Graph)
    (h : List.Forall₂ edgeSim g.edges g2.edges) :
    ∀ (ns : List GraphNode) (vtd : List Nat),
      visitAllNC g fuel ns vtd = visitAllNC g2 fuel ns vtd := by
  intro ns
  induction ns with
  | nil => intro vtd; rfl
  | cons n rest ih =>
    intro vtd
    simp only [visitAllNC]
    by_cases hm : n.id ∈ vtd
    · rw [if_pos hm, if_pos hm]
      exact ih vtd
    · rw [if_neg hm, if_neg hm, (visitNC_sim fuel g g2 h).1 [] vtd [] n.id]
      exact congrArg (Except.bind _) (funext fun v1 => ih v1)

/-- C4 amended: a cycle escapes the check as soon as one edge inside it
carries a condition, because validateNoCycles never traverses conditioned
edges; only a cycle all of whose edges are unconditional is reported as a
fatal circular dependency.  The first conjunct establishes the escape for
the canonical escaped cycle under every condition text; the second shows
the all-unconditional cycle is fatal with the cycle path in the message. -/
theorem C4_escape_cycle_amended :
    (∀ ct : String, validateNoCycles (mixedEscapeCycleGraph ct) = Except.ok ()) ∧
    validateNoCycles uncondCycleGraph = Except.error (cycleMsg [0, 1] 0) := by
  constructor
  · intro ct
    have hsim : List.Forall₂ edgeSim (mixedEscapeCycleGraph ct).edges
        (mixedEscapeCycleGraph "x").edges :=
      List.Forall₂.cons ⟨rfl, rfl, by simp⟩
        (List.Forall₂.cons ⟨rfl, rfl, by simp⟩
          (List.Forall₂.cons ⟨rfl, rfl, by simp [mixedEscapeCycleGraph]⟩
            List.Forall₂.nil))
    have h1 : validateNoCycles (mixedEscapeCycleGraph ct) =
        validateNoCycles (mixedEscapeCycleGraph "x") := by
      unfold validateNoCycles
      rw [show ncFuel (mixedEscapeCycleGraph ct) =
            ncFuel (mixedEscapeCycleGraph "x") from rfl,
          show (mixedEscapeCycleGraph ct).nodes =
            (mixedEscapeCycleGraph "x").nodes from rfl,
          visitAllNC_sim _ _ _ hsim]
    rw [h1]
    decide
  · decide

theorem exceptUnit_cases (r : Except String Unit) :
    r = Except.ok () ∨ ∃ e, r = Except.error e := by
  cases r with
  | ok v => cases v; exact Or.inl rfl
  | error e => exact Or.inr ⟨e, rfl⟩

/-- C5 amended: validateGraph runs the checks in the fixed order bracket
balance, unknown step, connectivity, acyclicity (the condition check only
warns and can never fail) and reports only the first failure encountered;
the result is valid exactly when the four fatal checks all pass, and its
error component is the error of the first failing check, with the failures
of later checks absent. -/
theorem C5_first_failure_amended (g : Graph) (ts : List Token) :
    ((validateGraph g ts).valid = true ↔
      (validateBrackets ts = Except.ok () ∧ validateAgents g = Except.ok () ∧
       validateConnectivity g = Except.ok () ∧ validateNoCycles g = Except.ok ())) ∧
    (validateGraph g ts).error =
      firstErr [validateBrackets ts, validateAgents g,
        validateConnectivity g, validateNoCycles g] := by
  rcases exceptUnit_cases (validateBrackets ts) with hb | ⟨e1, hb⟩ <;>
    rcases exceptUnit_cases (validateAgents g) with ha | ⟨e2, ha⟩ <;>
      rcases exceptUnit_cases (validateConnectivity g) with hc | ⟨e3, hc⟩ <;>
        rcases exceptUnit_cases (validateNoCycles g) with hn | ⟨e4, hn⟩ <;>
          simp [validateGraph, firstErr, hb, ha, hc, hn]

end Orkestr

namespace Orkestr

theorem interpPieces_missing (vars : VarStore)
    (hnn : ∀ p ∈ vars, (p.2).isSome = true) :
    ∀ (pieces : List Piece),
      (∃ nm ∈ pieceNames pieces, nm ∉ varKeys vars) →
      ∃ nm, nm ∈ pieceNames pieces ∧ nm ∉ varKeys vars ∧
        interpPieces vars pieces = Except.error (unknownVariableMsg nm vars) := by
  intro pieces
  induction pieces with
  | nil =>
    rintro ⟨nm, hmem, -⟩
    simp [pieceNames] at hmem
  | cons pc rest ih =>
    rintro ⟨nm0, hmem, hnot⟩
    cases pc with
    | lit c =>
      have hmem2 : nm0 ∈ pieceNames rest := by
        simpa [pieceNames] using hmem
      obtain ⟨nm, h1, h2, h3⟩ := ih ⟨nm0, hmem2, hnot⟩
      refine ⟨nm, by simpa [pieceNames] using h1, h2, ?_⟩
      simp only [interpPieces, h3, bindE_error]
    | ph nm1 =>
      by_cases hk : nm1 ∈ varKeys vars
      · have hfind : (vars.find? (fun p => p.1 = nm1)).isSome = true := by
          rw [List.find?_isSome]
          obtain ⟨q, hq, hq1⟩ := List.mem_map.mp hk
          exact ⟨q, hq, by simp [hq1]⟩
        obtain ⟨q, hq⟩ := Option.isSome_iff_exists.mp hfind
        obtain ⟨a, b⟩ := q
        have hqm : (a, b) ∈ vars := List.mem_of_find?_eq_some hq
        obtain ⟨v, hv⟩ := Option.isSome_iff_exists.mp (hnn (a, b) hqm)
        simp only at hv
        have hres : resolveVar vars nm1 = Except.ok (truncateValue v) := by
          unfold resolveVar
          rw [hq, hv]
        have hmem2 : nm0 ∈ pieceNames rest := by
          rcases (by simpa [pieceNames] using hmem : nm0 = nm1 ∨ nm0 ∈ pieceNames rest) with
            h | h
          · exact absurd (h ▸ hk) hnot
          · exact h
        obtain ⟨nm, h1, h2, h3⟩ := ih ⟨nm0, hmem2, hnot⟩
        refine ⟨nm, by simpa [pieceNames] using Or.inr h1, h2, ?_⟩
        simp only [interpPieces, hres, bindE_ok, h3, bindE_error]
      · have hfind : vars.find? (fun p => p.1 = nm1) = none := by
          rw [List.find?_eq_none]
          intro p hp
          simp only [decide_eq_true_eq]
          intro hpe
          exact hk (List.mem_map.mpr ⟨p, hp, hpe⟩)
        refine ⟨nm1, by simp [pieceNames], hk, ?_⟩
        have hres : resolveVar vars nm1 =
            Except.error (unknownVariableMsg nm1 vars) := by
          unfold resolveVar
          rw [hfind]
        simp only [interpPieces, hres, bindE_error]

/-- C7: interpolating an instruction containing a well-formed placeholder
whose name was never captured raises a hard error — the placeholder is not
left as literal text — and the error message both names the missing
variable and lists the currently available variable names. -/
theorem C7_missing_variable_hard_error (inst : String) (vars : VarStore)
    (hnn : ∀ p ∈ vars, (p.2).isSome = true)
    (hmiss : ∃ nm ∈ placeholderNames inst, nm ∉ varKeys vars) :
    ∃ nm, nm ∈ placeholderNames inst ∧ nm ∉ varKeys vars ∧
      interpolateVariables inst vars = Except.error (unknownVariableMsg nm vars) ∧
      (∃ pre post, unknownVariableMsg nm vars = pre ++ nm ++ post) ∧
      (∃ pre post, unknownVariableMsg nm vars =
        pre ++ joinSep ", " (varKeys vars) ++ post) := by
  obtain ⟨nm, h1, h2, h3⟩ := interpPieces_missing vars hnn _ hmiss
  refine ⟨nm, h1, h2, h3, ?_, ?_⟩
  · exact ⟨"Unknown variable '" ++ String.mk [lbrace],
      String.mk [rbrace] ++ "' in instruction. Available variables: " ++
        (let ks := joinSep ", " (varKeys vars)
         if ks = "" then "none" else ks),
      by simp [unknownVariableMsg, String.append_assoc]⟩
  · by_cases hks : joinSep ", " (varKeys vars) = ""
    · exact ⟨unknownVariableMsg nm vars, "", by rw [hks]; simp⟩
    · exact ⟨"Unknown variable '" ++ String.mk [lbrace] ++ nm ++ String.mk [rbrace] ++
        "' in instruction. Available variables: ", "",
        by simp [unknownVariableMsg, hks, String.append_assoc]⟩

/-- C7 witness: the spec's own example, interpolating a never-captured
placeholder against a store holding only 'data'. -/
theorem C7_witness :
    ∃ nm, nm ∈ placeholderNames "fix \x7bbugs\x7d" ∧
      nm ∉ varKeys [("data", some "3 issues")] ∧
      interpolateVariables "fix \x7bbugs\x7d" [("data", some "3 issues")] =
        Except.error (unknownVariableMsg nm [("data", some "3 issues")]) ∧
      (∃ pre post, unknownVariableMsg nm [("data", some "3 issues")] = pre ++ nm ++ post) ∧
      (∃ pre post, unknownVariableMsg nm [("data", some "3 issues")] =
        pre ++ joinSep ", " (varKeys [("data", some "3 issues")]) ++ post) :=
  C7_missing_variable_hard_error "fix \x7bbugs\x7d" [("data", some "3 issues")]
    (by decide) (by decide)

end Orkestr

namespace Orkestr

theorem string_mk_data (s : String) : String.mk s.data = s := by
  cases s
  rfl

/-- C8 amended: tokenize never raises.  An unterminated double-quoted
instruction is tokenized as a single step-with-instruction token whose
instruction is the entire remaining input, and an unterminated `(if `
condition is tokenized as a condition token holding the remaining input
with a synthesized closing parenthesis. -/
theorem C8_unterminated_amended :
    (∀ body : String, (∀ c ∈ body.data, c ≠ '"') →
      tokenize ("a\"" ++ body) =
        Except.ok [Token.agentWithInstruction "a" body]) ∧
    (∀ body : String, (∀ c ∈ body.data, c ≠ ')') →
      tokenize ("(if " ++ body) =
        Except.ok [Token.condition ("(if " ++ body ++ ")")]) := by
  constructor
  · intro body h
    have hdata : ("a\"" ++ body).data = 'a' :: '"' :: body.data := rfl
    have htake : body.data.takeWhile (fun c => c ≠ '"') = body.data :=
      List.takeWhile_eq_self_iff.mpr (by intro a ha; simpa using h a ha)
    have hdrop : body.data.dropWhile (fun c => c ≠ '"') = [] :=
      List.dropWhile_eq_nil_iff.mpr (by intro a ha; simpa using h a ha)
    show Except.ok (tokenizeAux (("a\"" ++ body).data.length + 1) ("a\"" ++ body).data "") = _
    rw [hdata]
    show Except.ok (tokenizeAux (body.data.length + 3) ('a' :: '"' :: body.data) "") = _
    have step1 : tokenizeAux (body.data.length + 3) ('a' :: '"' :: body.data) "" =
        tokenizeAux (body.data.length + 2) ('"' :: body.data) ("".push 'a') := rfl
    have step2 : tokenizeAux (body.data.length + 2) ('"' :: body.data) ("".push 'a') =
        Token.agentWithInstruction (strTrim ("".push 'a'))
          (String.mk (body.data.takeWhile (fun c => c ≠ '"'))) ::
        tokenizeAux (body.data.length + 1)
          ((body.data.dropWhile (fun c => c ≠ '"')).drop 1) "" := rfl
    rw [step1, step2, htake, hdrop, string_mk_data]
    rfl
  · intro body h
    have hdata : ("(if " ++ body).data = '(' :: 'i' :: 'f' :: ' ' :: body.data := rfl
    have htake : body.data.takeWhile (fun c => c ≠ ')') = body.data :=
      List.takeWhile_eq_self_iff.mpr (by intro a ha; simpa using h a ha)
    have hdrop : body.data.dropWhile (fun c => c ≠ ')') = [] :=
      List.dropWhile_eq_nil_iff.mpr (by intro a ha; simpa using h a ha)
    show Except.ok (tokenizeAux (("(if " ++ body).data.length + 1) ("(if " ++ body).data "") = _
    rw [hdata]
    show Except.ok (tokenizeAux (body.data.length + 5) ('(' :: 'i' :: 'f' :: ' ' :: body.data) "") = _
    have step1 : tokenizeAux (body.data.length + 5) ('(' :: 'i' :: 'f' :: ' ' :: body.data) "" =
        Token.condition ("(if " ++ String.mk (body.data.takeWhile (fun c => c ≠ ')')) ++ ")") ::
        tokenizeAux (body.data.length + 4)
          ((body.data.dropWhile (fun c => c ≠ ')')).drop 1) "" := rfl
    rw [step1, htake, hdrop, string_mk_data]
    rfl

/-- C8 witness: the amended behavior at the unterminated inputs
`a"oops` and `(if failed`. -/
theorem C8_witness :
    tokenize ("a\"" ++ "oops") =
      Except.ok [Token.agentWithInstruction "a" "oops"] ∧
    tokenize ("(if " ++ "failed") =
      Except.ok [Token.condition ("(if " ++ "failed" ++ ")")] :=
  ⟨C8_unterminated_amended.1 "oops" (by decide),
   C8_unterminated_amended.2 "failed" (by decide)⟩

end Orkestr

namespace Orkestr

theorem lastIdFrom_succ_base (c : Nat) : ∀ k, lastIdFrom c (c + 1) k = c + k := by
  intro k
  cases k with
  | zero => rfl
  | succ k2 => simp [lastIdFrom]; omega

theorem processSteps_agents :
    ∀ (steps : List (String × Option String)) (p c : Nat)
      (nodes : List GraphNode) (edges : List GraphEdge),
      processSteps (steps.map mkAgentAST) (some p)
          {nodes := nodes, edges := edges, counter := c} =
        ({nodes := nodes ++ agentNodesFrom c steps,
          edges := edges ++ chainEdgesFrom p c steps.length,
          counter := c + steps.length}, some (lastIdFrom p c steps.length)) := by
  intro steps
  induction steps with
  | nil =>
    intro p c nodes edges
    simp [processSteps, agentNodesFrom, chainEdgesFrom, lastIdFrom]
  | cons hd rest ih =>
    intro p c nodes edges
    obtain ⟨nm, ins⟩ := hd
    have hstep : processSteps (((nm, ins) :: rest).map mkAgentAST) (some p)
        {nodes := nodes, edges := edges, counter := c} =
        processSteps (rest.map mkAgentAST) (some c)
          {nodes := nodes ++ [{id := c, kind := NodeKind.agent, agent := some nm, instruction := ins}],
           edges := edges ++ [{fromId := p, toId := c}],
           counter := c + 1} := rfl
    rw [hstep, ih c (c + 1) _ _]
    simp only [Prod.mk.injEq, LowerState.mk.injEq]
    refine ⟨⟨by simp [agentNodesFrom], by simp [chainEdgesFrom],
      by simp only [List.length_cons]; omega⟩, ?_⟩
    rw [lastIdFrom_succ_base]
    congr 1

theorem chainEdgesFrom_mem :
    ∀ (k p c : Nat) (e : GraphEdge), e ∈ chainEdgesFrom p c k →
      e.condition = none ∧ ((e.fromId = p ∧ e.toId = c) ∨ c ≤ e.fromId) := by
  intro k
  induction k with
  | zero => intro p c e he; simp [chainEdgesFrom] at he
  | succ k2 ih =>
    intro p c e he
    simp only [chainEdgesFrom, List.mem_cons] at he
    rcases he with he | he
    · subst he
      exact ⟨rfl, Or.inl ⟨rfl, rfl⟩⟩
    · obtain ⟨hc, hrest⟩ := ih c (c + 1) e he
      refine ⟨hc, Or.inr ?_⟩
      rcases hrest with ⟨h1, -⟩ | h1 <;> omega

theorem setCondFirst_no_match :
    ∀ (es : List GraphEdge) (s t : Nat) (cond : String),
      (∀ e ∈ es, ¬(e.fromId = s ∧ e.toId = t)) →
      setCondFirst es s t cond = es := by
  intro es s t cond h
  induction es with
  | nil => rfl
  | cons e rest ih =>
    simp only [setCondFirst]
    rw [if_neg (by
      have := h e (List.mem_cons_self e rest)
      simp only [Bool.and_eq_true, decide_eq_true_eq]
      exact fun hb => this ⟨hb.1, hb.2⟩)]
    rw [ih (fun e2 he2 => h e2 (List.mem_cons_of_mem e he2))]

/-- C3: lowering a conditional whose target is a compound expression (a
sequence of two or more steps) produces a graph with no edge carrying the
conditional's text.  The target's lowering hands back the id of its last
node; the condition is attached only if a direct edge from the source's
exit to that returned id exists — and none does — so the edge actually
entering the target's first node stays unconditional and the condition is
silently dropped: every edge of the lowered graph is unconditional, for
every source name, condition text, and sequence of two or more agent
steps. -/
theorem C3_condition_dropped_on_compound_target
    (src ct : String) (steps : List (String × Option String))
    (h : 2 ≤ steps.length) :
    (astToGraph (ASTNode.conditional (ASTNode.agent src none) ct
        (ASTNode.sequence (steps.map mkAgentAST)))).edges =
      chainEdgesFrom 0 1 steps.length ∧
    ∀ e ∈ (astToGraph (ASTNode.conditional (ASTNode.agent src none) ct
        (ASTNode.sequence (steps.map mkAgentAST)))).edges,
      e.condition = none := by
  have hseq := processSteps_agents steps 0 1
    [{id := 0, kind := NodeKind.agent, agent := some src, instruction := none}] []
  have hstep : processNode
      (ASTNode.conditional (ASTNode.agent src none) ct
        (ASTNode.sequence (steps.map mkAgentAST))) none
      {nodes := [], edges := [], counter := 0} =
      (fun res2 =>
        ({res2.1 with edges := setEdgeCondition res2.1.edges (some 0) res2.2 ct},
          res2.2))
        (processSteps (steps.map mkAgentAST) (some 0)
          {nodes := [{id := 0, kind := NodeKind.agent, agent := some src, instruction := none}], edges := [], counter := 1}) := rfl
  rw [hseq] at hstep
  have hmain : (astToGraph (ASTNode.conditional (ASTNode.agent src none) ct
      (ASTNode.sequence (steps.map mkAgentAST)))).edges =
      setCondFirst ([] ++ chainEdgesFrom 0 1 steps.length) 0
        (lastIdFrom 0 1 steps.length) ct := by
    unfold astToGraph
    rw [hstep]
    rfl
  rw [List.nil_append] at hmain
  obtain ⟨k2, hk⟩ : ∃ k2, steps.length = k2 + 2 :=
    ⟨steps.length - 2, by omega⟩
  have hlast : lastIdFrom 0 1 steps.length = steps.length := by
    rw [hk]; simp [lastIdFrom]; omega
  have hnom : ∀ e ∈ chainEdgesFrom 0 1 steps.length,
      ¬(e.fromId = 0 ∧ e.toId = lastIdFrom 0 1 steps.length) := by
    intro e he hcontra
    obtain ⟨-, hsh⟩ := chainEdgesFrom_mem steps.length 0 1 e he
    rw [hlast] at hcontra
    rcases hsh with ⟨h1, h2⟩ | h1 <;> omega
  have hset := setCondFirst_no_match (chainEdgesFrom 0 1 steps.length) 0
    (lastIdFrom 0 1 steps.length) ct hnom
  rw [hmain, hset]
  exact ⟨rfl, fun e he => (chainEdgesFrom_mem steps.length 0 1 e he).1⟩

/-- C3 witness: the claim's example shape `src (if failed)~> b -> c`. -/
theorem C3_witness :
    (astToGraph (ASTNode.conditional (ASTNode.agent "src" none) "(if failed)"
        (ASTNode.sequence ([("b", none), ("c", none)].map mkAgentAST)))).edges =
      chainEdgesFrom 0 1 ([("b", (none : Option String)), ("c", none)]).length ∧
    ∀ e ∈ (astToGraph (ASTNode.conditional (ASTNode.agent "src" none) "(if failed)"
        (ASTNode.sequence ([("b", none), ("c", none)].map mkAgentAST)))).edges,
      e.condition = none :=
  C3_condition_dropped_on_compound_target "src" "(if failed)"
    [("b", none), ("c", none)] (by decide)

end Orkestr

namespace Orkestr

theorem bindX_ok {α β : Type} (a : α) (k : α → Except String β) :
    (Except.ok a : Except String α).bind k = k a := rfl

theorem bindX_error {α β : Type} (m : String) (k : α → Except String β) :
    (Except.error m : Except String α).bind k = Except.error m := rfl

theorem opTail_length (op : Token) : ∀ names : List String,
    (opTail op names).length = 2 * names.length := by
  intro names
  induction names with
  | nil => rfl
  | cons n ns ih => simp [opTail, ih]; omega

theorem parseExpr_agent_step (f prec : Nat) (nm : String) (done rest : List Token) :
    parseExpr (f + 2) prec done (Token.agent nm :: rest) =
      parseLoop (f + 1) prec (ASTNode.agent nm none) (Token.agent nm :: done) rest := rfl

theorem parseLoop_op_step (g : Nat) (left : ASTNode) (done rest : List Token)
    (mkOp : ASTNode → ASTNode → ASTNode) (op : Token)
    (hop : (op = Token.sequential ∧ mkOp = mergeSeq) ∨
           (op = Token.parallel ∧ mkOp = mergePar)) :
    parseLoop (g + 1) 0 left done (op :: rest) =
      (parseExpr g (getOperatorPrecedence op + 1) (op :: done) rest).bind
        (fun r => parseLoop g 0 (mkOp left r.1) r.2.1 r.2.2) := by
  rcases hop with ⟨h1, h2⟩ | ⟨h1, h2⟩ <;> subst h1 <;> subst h2 <;> rfl

theorem parseExpr_agent_opTail (f : Nat) (prec : Nat) (nm : String)
    (done : List Token) (op : Token) (names : List String)
    (hprec : names ≠ [] → getOperatorPrecedence op < prec) :
    parseExpr (f + 2) prec done (Token.agent nm :: opTail op names) =
      Except.ok (ASTNode.agent nm none, Token.agent nm :: done, opTail op names) := by
  rw [parseExpr_agent_step]
  cases names with
  | nil => rfl
  | cons n ns =>
    show parseLoop (f + 1) prec (ASTNode.agent nm none) (Token.agent nm :: done)
        (op :: Token.agent n :: opTail op ns) = _
    simp only [parseLoop]
    rw [if_pos (hprec (by simp))]
    rfl

theorem parseLoop_chain_seq : ∀ (names : List String) (f : Nat) (left : ASTNode)
    (done : List Token),
    ∃ d, parseLoop (f + 2 * names.length + 1) 0 left done
        (opTail Token.sequential names) =
      Except.ok (foldSeqAgents left names, d, []) := by
  intro names
  induction names with
  | nil =>
    intro f left done
    exact ⟨done, rfl⟩
  | cons n ns ih =>
    intro f left done
    have hfuel : f + 2 * (n :: ns).length + 1 = (f + 2 * ns.length + 2) + 1 := by
      simp [List.length_cons]; omega
    rw [hfuel]
    show ∃ d, parseLoop (f + 2 * ns.length + 2 + 1) 0 left done
        (Token.sequential :: Token.agent n :: opTail Token.sequential ns) = _
    rw [parseLoop_op_step _ _ _ _ mergeSeq Token.sequential (Or.inl ⟨rfl, rfl⟩),
      show getOperatorPrecedence Token.sequential + 1 = 3 from rfl]
    have hexpr := parseExpr_agent_opTail (f + 2 * ns.length) 3 n
      (Token.sequential :: done) Token.sequential ns
      (fun _ => by simp [getOperatorPrecedence])
    rw [show f + 2 * ns.length + 2 = (f + 2 * ns.length) + 2 from rfl, hexpr, bindX_ok]
    have hrec := ih (f + 1) (mergeSeq left (ASTNode.agent n none))
      (Token.agent n :: Token.sequential :: done)
    rw [show (f + 2 * ns.length) + 2 = (f + 1) + 2 * ns.length + 1 by omega]
    obtain ⟨d, hd⟩ := hrec
    exact ⟨d, by rw [hd]; rfl⟩

theorem parseLoop_chain_par : ∀ (names : List String) (f : Nat) (left : ASTNode)
    (done : List Token),
    ∃ d, parseLoop (f + 2 * names.length + 1) 0 left done
        (opTail Token.parallel names) =
      Except.ok (foldParAgents left names, d, []) := by
  intro names
  induction names with
  | nil =>
    intro f left done
    exact ⟨done, rfl⟩
  | cons n ns ih =>
    intro f left done
    have hfuel : f + 2 * (n :: ns).length + 1 = (f + 2 * ns.length + 2) + 1 := by
      simp [List.length_cons]; omega
    rw [hfuel]
    show ∃ d, parseLoop (f + 2 * ns.length + 2 + 1) 0 left done
        (Token.parallel :: Token.agent n :: opTail Token.parallel ns) = _
    rw [parseLoop_op_step _ _ _ _ mergePar Token.parallel (Or.inr ⟨rfl, rfl⟩),
      show getOperatorPrecedence Token.parallel + 1 = 4 from rfl]
    have hexpr := parseExpr_agent_opTail (f + 2 * ns.length) 4 n
      (Token.parallel :: done) Token.parallel ns
      (fun _ => by simp [getOperatorPrecedence])
    rw [show f + 2 * ns.length + 2 = (f + 2 * ns.length) + 2 from rfl, hexpr, bindX_ok]
    have hrec := ih (f + 1) (mergePar left (ASTNode.agent n none))
      (Token.agent n :: Token.parallel :: done)
    rw [show (f + 2 * ns.length) + 2 = (f + 1) + 2 * ns.length + 1 by omega]
    obtain ⟨d, hd⟩ := hrec
    exact ⟨d, by rw [hd]; rfl⟩

theorem foldSeqAgents_sequence : ∀ (ns : List String) (ss : List ASTNode),
    foldSeqAgents (ASTNode.sequence ss) ns =
      ASTNode.sequence (ss ++ ns.map (fun nm => ASTNode.agent nm none)) := by
  intro ns
  induction ns with
  | nil => intro ss; simp [foldSeqAgents]
  | cons n rest ih =>
    intro ss
    show foldSeqAgents (mergeSeq (ASTNode.sequence ss) (ASTNode.agent n none)) rest = _
    rw [show mergeSeq (ASTNode.sequence ss) (ASTNode.agent n none) =
      ASTNode.sequence (ss ++ [ASTNode.agent n none]) from rfl, ih]
    simp

theorem foldParAgents_parallel : ∀ (ns : List String) (ss : List ASTNode),
    foldParAgents (ASTNode.parallel ss) ns =
      ASTNode.parallel (ss ++ ns.map (fun nm => ASTNode.agent nm none)) := by
  intro ns
  induction ns with
  | nil => intro ss; simp [foldParAgents]
  | cons n rest ih =>
    intro ss
    show foldParAgents (mergePar (ASTNode.parallel ss) (ASTNode.agent n none)) rest = _
    rw [show mergePar (ASTNode.parallel ss) (ASTNode.agent n none) =
      ASTNode.parallel (ss ++ [ASTNode.agent n none]) from rfl, ih]
    simp

/-- C10: buildAST folds repeated same-precedence operators left-
associatively into flat lists: a chain of n ≥ 2 bare steps joined by the
sequential operator parses to a single sequence node whose steps list has
exactly the n agents in order (not a nest of binary pairs), and likewise a
chain joined by the parallel operator parses to one parallel node with a
flat branches list. -/
theorem C10_flat_chain_folding :
    (∀ (a b : String) (ns : List String),
      buildAST (chainTokens Token.sequential (a :: b :: ns)) =
        Except.ok (ASTNode.sequence
          ((a :: b :: ns).map (fun nm => ASTNode.agent nm none)))) ∧
    (∀ (a b : String) (ns : List String),
      buildAST (chainTokens Token.parallel (a :: b :: ns)) =
        Except.ok (ASTNode.parallel
          ((a :: b :: ns).map (fun nm => ASTNode.agent nm none)))) := by
  constructor
  · intro a b ns
    have hlen : (chainTokens Token.sequential (a :: b :: ns)).length =
        2 * (b :: ns).length + 1 := by
      show (Token.agent a :: opTail Token.sequential (b :: ns)).length = _
      simp [opTail_length]
    unfold buildAST
    rw [hlen]
    have hfuel : 2 * (2 * (b :: ns).length + 1) + 4 =
        (4 * (b :: ns).length + 4) + 2 := by omega
    rw [hfuel]
    show ((parseExpr (4 * (b :: ns).length + 4 + 2) 0 []
        (Token.agent a :: opTail Token.sequential (b :: ns))).bind
        (fun r => Except.ok r.1)) = _
    rw [parseExpr_agent_step]
    have hloop := parseLoop_chain_seq (b :: ns)
      (2 * (b :: ns).length + 4) (ASTNode.agent a none) [Token.agent a]
    rw [show 4 * (b :: ns).length + 4 + 1 =
      (2 * (b :: ns).length + 4) + 2 * (b :: ns).length + 1 by omega]
    obtain ⟨d, hd⟩ := hloop
    rw [hd, bindX_ok]
    show Except.ok (foldSeqAgents (ASTNode.agent a none) (b :: ns)) = _
    rw [show foldSeqAgents (ASTNode.agent a none) (b :: ns) =
      foldSeqAgents (ASTNode.sequence [ASTNode.agent a none, ASTNode.agent b none]) ns
      from rfl, foldSeqAgents_sequence]
    rfl
  · intro a b ns
    have hlen : (chainTokens Token.parallel (a :: b :: ns)).length =
        2 * (b :: ns).length + 1 := by
      show (Token.agent a :: opTail Token.parallel (b :: ns)).length = _
      simp [opTail_length]
    unfold buildAST
    rw [hlen]
    have hfuel : 2 * (2 * (b :: ns).length + 1) + 4 =
        (4 * (b :: ns).length + 4) + 2 := by omega
    rw [hfuel]
    show ((parseExpr (4 * (b :: ns).length + 4 + 2) 0 []
        (Token.agent a :: opTail Token.parallel (b :: ns))).bind
        (fun r => Except.ok r.1)) = _
    rw [parseExpr_agent_step]
    have hloop := parseLoop_chain_par (b :: ns)
      (2 * (b :: ns).length + 4) (ASTNode.agent a none) [Token.agent a]
    rw [show 4 * (b :: ns).length + 4 + 1 =
      (2 * (b :: ns).length + 4) + 2 * (b :: ns).length + 1 by omega]
    obtain ⟨d, hd⟩ := hloop
    rw [hd, bindX_ok]
    show Except.ok (foldParAgents (ASTNode.agent a none) (b :: ns)) = _
    rw [show foldParAgents (ASTNode.agent a none) (b :: ns) =
      foldParAgents (ASTNode.parallel [ASTNode.agent a none, ASTNode.agent b none]) ns
      from rfl, foldParAgents_parallel]
    rfl

end Orkestr

namespace Orkestr

theorem everyE_ok_true_iff {α : Type} (f : α → Except String Bool) :
    ∀ es : List α, everyE f es = Except.ok true ↔ ∀ e ∈ es, f e = Except.ok true := by
  intro es
  induction es with
  | nil => simp [everyE]
  | cons e rest ih =>
    simp only [everyE]
    constructor
    · intro h
      cases hf : f e with
      | error msg => rw [hf, bindE_error] at h; exact absurd h (by simp)
      | ok b0 =>
        rw [hf, bindE_ok] at h
        cases b0 with
        | true =>
          rw [if_pos rfl] at h
          intro x hx
          rcases List.mem_cons.mp hx with hx | hx
          · rw [hx]; exact hf
          · exact (ih.mp h) x hx
        | false =>
          rw [if_neg (by simp)] at h
          exact absurd h (by simp)
    · intro h
      have hf : f e = Except.ok true := h e (List.mem_cons_self e rest)
      rw [hf, bindE_ok, if_pos rfl]
      exact ih.mpr (fun x hx => h x (List.mem_cons_of_mem e hx))

theorem findNodeById_nodup :
    ∀ (nodes : List GraphNode), (nodes.map GraphNode.id).Nodup →
      ∀ (src : GraphNode), src ∈ nodes →
        findNodeById nodes src.id = some src := by
  intro nodes
  induction nodes with
  | nil => intro _ src hs; simp at hs
  | cons n ns ih =>
    intro hnd src hs
    rw [List.map_cons, List.nodup_cons] at hnd
    rcases List.mem_cons.mp hs with hs | hs
    · subst hs
      simp [findNodeById]
    · have hne : src.id ≠ n.id := by
        intro he
        exact hnd.1 (he ▸ List.mem_map.mpr ⟨src, hs, rfl⟩)
      have : findNodeById ns src.id = some src := ih hnd.2 src hs
      simp only [findNodeById, List.find?] at this ⊢
      rw [show (decide (n.id = src.id)) = false from by
        simp only [decide_eq_false_iff_not]
        exact fun h2 => hne h2.symm]
      exact this

theorem processBranches_agents :
    ∀ (names : List String) (entryId c : Nat)
      (nodes : List GraphNode) (edges : List GraphEdge),
      processBranches (names.map (fun nm => ASTNode.agent nm none)) entryId
          {nodes := nodes, edges := edges, counter := c} =
        ({nodes := nodes ++ agentNodesFrom c (names.map (fun nm => (nm, none))),
          edges := edges ++ entryEdgesFrom entryId c names.length,
          counter := c + names.length}, List.range' c names.length) := by
  intro names
  induction names with
  | nil =>
    intro entryId c nodes edges
    simp [processBranches, agentNodesFrom, entryEdgesFrom, List.range']
  | cons nm ns ih =>
    intro entryId c nodes edges
    have hstep : processBranches ((nm :: ns).map (fun nm2 => ASTNode.agent nm2 none))
        entryId {nodes := nodes, edges := edges, counter := c} =
        (fun res2 => (res2.1, c :: res2.2))
          (processBranches (ns.map (fun nm2 => ASTNode.agent nm2 none)) entryId
            {nodes := nodes ++ [{id := c, kind := NodeKind.agent, agent := some nm, instruction := none}],
             edges := edges ++ [{fromId := entryId, toId := c}],
             counter := c + 1}) := rfl
    rw [hstep, ih entryId (c + 1) _ _]
    simp only [Prod.mk.injEq, LowerState.mk.injEq]
    refine ⟨⟨by simp [agentNodesFrom], ?_, by simp only [List.length_cons]; omega⟩, ?_⟩
    · simp only [entryEdgesFrom, List.length_cons, List.range'_succ, List.map_cons,
        List.append_assoc, List.singleton_append]
    · simp only [List.length_cons]
      rw [List.range'_succ]

theorem astToGraph_parallel_agents (names : List String) :
    astToGraph (ASTNode.parallel (names.map (fun nm => ASTNode.agent nm none))) =
      { nodes := ({id := 0, kind := NodeKind.parallelEntry} : GraphNode) ::
          (agentNodesFrom 1 (names.map (fun nm => (nm, none))) ++
            [{id := names.length + 1, kind := NodeKind.parallelMerge,
              waitFor := List.range' 1 names.length}]),
        edges := entryEdgesFrom 0 1 names.length ++
          (List.range' 1 names.length).map
            (fun e => {fromId := e, toId := names.length + 1}) } := by
  have hbr := processBranches_agents names 0 1
    [{id := 0, kind := NodeKind.parallelEntry}] []
  have hstep : processNode (ASTNode.parallel (names.map (fun nm => ASTNode.agent nm none)))
      none {nodes := [], edges := [], counter := 0} =
      (fun res =>
        ({nodes := res.1.nodes ++
            [{id := res.1.counter, kind := NodeKind.parallelMerge, waitFor := res.2}],
          edges := res.1.edges ++
            res.2.map (fun e => {fromId := e, toId := res.1.counter}),
          counter := res.1.counter + 1}, some res.1.counter))
        (processBranches (names.map (fun nm => ASTNode.agent nm none)) 0
          {nodes := [{id := 0, kind := NodeKind.parallelEntry}], edges := [], counter := 1}) := rfl
  unfold astToGraph
  rw [hstep, hbr]
  simp only [List.singleton_append, List.nil_append, Graph.mk.injEq]
  exact ⟨by simp [Nat.add_comm], by simp [Nat.add_comm]⟩

theorem range'_ne_top (k : Nat) : ∀ i ∈ List.range' 1 k, i ≠ k + 1 := by
  intro i hi
  have := List.mem_range'_1.mp hi
  omega

/-- C9: a parallel-merge node is ready exactly when every tributary edge's
source is completed or skipped; the synthesized aggregate output has
success equal to the conjunction of the branch successes and results equal
to the branch results in input order; and in the graph lowered from a
parallel AST node, the incoming edges of the merge node list the branch
exit nodes in declaration order (node-1 .. node-k for k declared branches),
which is the order executeMerge reads the branch outputs in. -/
theorem C9_merge_semantics :
    (∀ (st : ExecState) (node : GraphNode),
      (st.graph.nodes.map GraphNode.id).Nodup →
      (isReadyToMerge node st = Except.ok true ↔
        ∀ e ∈ st.graph.edges.filter (fun e2 => e2.toId = node.id),
          ∃ src ∈ st.graph.nodes, src.id = e.fromId ∧
            (src.status = Status.completed ∨ src.status = Status.skipped))) ∧
    (∀ outs : List Output,
      (mergeBranchOutputs outs).success = outs.all (fun o => o.success) ∧
      (mergeBranchOutputs outs).results = outs.map (fun o => o.result)) ∧
    (∀ names : List String,
      ((astToGraph (ASTNode.parallel
          (names.map (fun nm => ASTNode.agent nm none)))).edges.filter
            (fun e => e.toId = names.length + 1)).map (fun e => e.fromId) =
        List.range' 1 names.length ∧
      ({id := names.length + 1, kind := NodeKind.parallelMerge,
        waitFor := List.range' 1 names.length} : GraphNode) ∈
        (astToGraph (ASTNode.parallel
          (names.map (fun nm => ASTNode.agent nm none)))).nodes) := by
  refine ⟨?_, ?_, ?_⟩
  · intro st node hnd
    unfold isReadyToMerge
    rw [everyE_ok_true_iff]
    constructor
    · intro h e he
      have := h e he
      cases hf : findNodeById st.graph.nodes e.fromId with
      | none => rw [hf] at this; exact absurd this (by simp)
      | some src =>
        rw [hf] at this
        have hsrcm : src ∈ st.graph.nodes := List.mem_of_find?_eq_some hf
        have hsrci : src.id = e.fromId := by
          have := List.find?_some hf
          simpa using this
        refine ⟨src, hsrcm, hsrci, ?_⟩
        have hb : (decide (src.status = Status.completed) ||
            decide (src.status = Status.skipped)) = true := by
          have h2 : (Except.ok (decide (src.status = Status.completed) ||
              decide (src.status = Status.skipped)) : Except String Bool) =
              Except.ok true := by
            simpa using this
          injection h2
        rcases Bool.or_eq_true_iff.mp hb with hb | hb
        · exact Or.inl (by simpa using hb)
        · exact Or.inr (by simpa using hb)
    · intro h e he
      obtain ⟨src, hmem, hid, hstat⟩ := h e he
      rw [show e.fromId = src.id from hid.symm, findNodeById_nodup st.graph.nodes hnd src hmem]
      show (Except.ok (decide (src.status = Status.completed) ||
          decide (src.status = Status.skipped)) : Except String Bool) = Except.ok true
      have hb : (decide (src.status = Status.completed) ||
          decide (src.status = Status.skipped)) = true := by
        rcases hstat with hs | hs <;> simp [hs]
      rw [hb]
  · intro outs
    exact ⟨rfl, rfl⟩
  · intro names
    rw [astToGraph_parallel_agents]
    constructor
    · show ((entryEdgesFrom 0 1 names.length ++
        (List.range' 1 names.length).map
          (fun e => ({fromId := e, toId := names.length + 1} : GraphEdge))).filter
            (fun e => e.toId = names.length + 1)).map (fun e => e.fromId) = _
      rw [List.filter_append]
      have h1 : (entryEdgesFrom 0 1 names.length).filter
          (fun e => e.toId = names.length + 1) = [] := by
        rw [List.filter_eq_nil_iff]
        intro e he
        unfold entryEdgesFrom at he
        obtain ⟨i, hi, hie⟩ := List.mem_map.mp he
        rw [← hie]
        simpa using range'_ne_top names.length i hi
      have h2 : ((List.range' 1 names.length).map
          (fun e => ({fromId := e, toId := names.length + 1} : GraphEdge))).filter
            (fun e => e.toId = names.length + 1) =
          (List.range' 1 names.length).map
            (fun e => ({fromId := e, toId := names.length + 1} : GraphEdge)) := by
        rw [List.filter_eq_self]
        intro e he
        obtain ⟨i, hi, hie⟩ := List.mem_map.mp he
        rw [← hie]
        simp
      rw [h1, h2, List.nil_append, List.map_map]
      rw [show ((fun (e : GraphEdge) => e.fromId) ∘
        (fun e => ({fromId := e, toId := names.length + 1, condition := none} : GraphEdge))) =
        (fun i => i) from rfl]
      exact List.map_id' _
    · simp

end Orkestr

namespace Orkestr

/-- C9 witness: the three conjuncts instantiated — a merge whose two
tributaries are completed and skipped, a two-output aggregate, and the
two-branch parallel lowering. -/
theorem C9_witness :
    (isReadyToMerge
        {id := 3, kind := NodeKind.parallelMerge, waitFor := [1, 2]}
        { graph := { nodes := [{id := 0, kind := NodeKind.parallelEntry, status := Status.completed},
                               {id := 1, kind := NodeKind.agent, agent := some "test", status := Status.completed},
                               {id := 2, kind := NodeKind.agent, agent := some "lint", status := Status.skipped},
                               {id := 3, kind := NodeKind.parallelMerge, waitFor := [1, 2]}],
                     edges := [{fromId := 0, toId := 1}, {fromId := 0, toId := 2},
                               {fromId := 1, toId := 3}, {fromId := 2, toId := 3}] } } =
        Except.ok true ↔
      ∀ e ∈ (List.filter (fun e2 => e2.toId = (3 : Nat)) -- merge id
          [({fromId := 0, toId := 1} : GraphEdge), {fromId := 0, toId := 2},
           {fromId := 1, toId := 3}, {fromId := 2, toId := 3}]),
        ∃ src ∈ [({id := 0, kind := NodeKind.parallelEntry, status := Status.completed} : GraphNode),
                 {id := 1, kind := NodeKind.agent, agent := some "test", status := Status.completed},
                 {id := 2, kind := NodeKind.agent, agent := some "lint", status := Status.skipped},
                 {id := 3, kind := NodeKind.parallelMerge, waitFor := [1, 2]}],
          src.id = e.fromId ∧
            (src.status = Status.completed ∨ src.status = Status.skipped)) ∧
    ((mergeBranchOutputs [{success := true, result := some "r1"},
        {success := false, result := some "r2"}]).success =
      ([({success := true, result := some "r1"} : Output),
        {success := false, result := some "r2"}]).all (fun o => o.success) ∧
     (mergeBranchOutputs [{success := true, result := some "r1"},
        {success := false, result := some "r2"}]).results =
      ([({success := true, result := some "r1"} : Output),
        {success := false, result := some "r2"}]).map (fun o => o.result)) ∧
    (((astToGraph (ASTNode.parallel
        (["test", "lint"].map (fun nm => ASTNode.agent nm none)))).edges.filter
          (fun e => e.toId = ["test", "lint"].length + 1)).map (fun e => e.fromId) =
      List.range' 1 ["test", "lint"].length ∧
     ({id := ["test", "lint"].length + 1, kind := NodeKind.parallelMerge,
       waitFor := List.range' 1 ["test", "lint"].length} : GraphNode) ∈
      (astToGraph (ASTNode.parallel
        (["test", "lint"].map (fun nm => ASTNode.agent nm none)))).nodes) :=
  ⟨C9_merge_semantics.1
      { graph := { nodes := [{id := 0, kind := NodeKind.parallelEntry, status := Status.completed},
                             {id := 1, kind := NodeKind.agent, agent := some "test", status := Status.completed},
                             {id := 2, kind := NodeKind.agent, agent := some "lint", status := Status.skipped},
                             {id := 3, kind := NodeKind.parallelMerge, waitFor := [1, 2]}],
                   edges := [{fromId := 0, toId := 1}, {fromId := 0, toId := 2},
                             {fromId := 1, toId := 3}, {fromId := 2, toId := 3}] } }
      {id := 3, kind := NodeKind.parallelMerge, waitFor := [1, 2]}
      (by decide),
   C9_merge_semantics.2.1 [{success := true, result := some "r1"},
      {success := false, result := some "r2"}],
   C9_merge_semantics.2.2 ["test", "lint"]⟩

end Orkestr

namespace Orkestr

theorem updNode_id (P : Nat → Bool) (n : GraphNode) :
    (if P n.id then {n with status := Status.pending} else n).id = n.id := by
  by_cases h : P n.id <;> simp [h]

theorem updNode_kind (P : Nat → Bool) (n : GraphNode) :
    (if P n.id then {n with status := Status.pending} else n).kind = n.kind := by
  by_cases h : P n.id <;> simp [h]

theorem bulkReset_false (st : ExecState) : bulkReset st (fun _ => false) = st := by
  obtain ⟨g, cur, comp, fl, sk, outs⟩ := st
  obtain ⟨gn, ge⟩ := g
  simp [bulkReset]

theorem findNodeById_bulk (P : Nat → Bool) (i : Nat) :
    ∀ nodes : List GraphNode,
      findNodeById (nodes.map (fun n =>
          if P n.id then {n with status := Status.pending} else n)) i =
        (findNodeById nodes i).map (fun n =>
          if P n.id then {n with status := Status.pending} else n) := by
  intro nodes
  induction nodes with
  | nil => rfl
  | cons n ns ih =>
    by_cases hni : n.id = i
    · unfold findNodeById
      rw [List.map_cons,
        List.find?_cons_of_pos _ (by simp only [decide_eq_true_eq, updNode_id]; exact hni),
        List.find?_cons_of_pos _ (by simp only [decide_eq_true_eq]; exact hni)]
      rfl
    · unfold findNodeById
      rw [List.map_cons,
        List.find?_cons_of_neg _ (by simp only [decide_eq_true_eq, updNode_id]; exact hni),
        List.find?_cons_of_neg _ (by simp only [decide_eq_true_eq]; exact hni)]
      exact ih

theorem resettableId_bulk (st : ExecState) (P : Nat → Bool) (i : Nat) :
    resettableId (bulkReset st P) i = resettableId st i := by
  unfold resettableId
  have hnodes : (bulkReset st P).graph.nodes =
      st.graph.nodes.map (fun n =>
        if P n.id then {n with status := Status.pending} else n) := rfl
  rw [hnodes, findNodeById_bulk]
  cases findNodeById st.graph.nodes i with
  | none => rfl
  | some n =>
    rw [Option.map_some']
    show decide ((if P n.id then {n with status := Status.pending} else n).kind
        ≠ NodeKind.checkpoint) = decide (n.kind ≠ NodeKind.checkpoint)
    rw [updNode_kind]

theorem bulkReset_nodes_ids (st : ExecState) (P : Nat → Bool) :
    (bulkReset st P).graph.nodes.map GraphNode.id =
      st.graph.nodes.map GraphNode.id := by
  show (st.graph.nodes.map _).map GraphNode.id = _
  rw [List.map_map]
  exact List.map_congr_left (fun n _ => updNode_id P n)

theorem bulkReset_compose (st : ExecState) (P Q : Nat → Bool) :
    bulkReset (bulkReset st P) Q = bulkReset st (fun i => P i || Q i) := by
  obtain ⟨g, cur, comp, fl, sk, outs⟩ := st
  obtain ⟨gn, ge⟩ := g
  simp only [bulkReset, Graph.mk.injEq, ExecState.mk.injEq]
  refine ⟨⟨?_, trivial⟩, trivial, ?_, ?_, trivial, ?_⟩
  · rw [List.map_map]
    apply List.map_congr_left
    intro n _
    show (if Q (if P n.id then {n with status := Status.pending} else n).id
        then _ else _) = _
    rw [updNode_id]
    by_cases hP : P n.id <;> by_cases hQ : Q n.id <;> simp [hP, hQ]
  · rw [List.filter_filter]
    apply List.filter_congr
    intro i _
    by_cases hP : P i <;> by_cases hQ : Q i <;> simp [hP, hQ]
  · rw [List.filter_filter]
    apply List.filter_congr
    intro i _
    by_cases hP : P i <;> by_cases hQ : Q i <;> simp [hP, hQ]
  · rw [List.filter_filter]
    apply List.filter_congr
    intro p _
    by_cases hP : P p.1 <;> by_cases hQ : Q p.1 <;> simp [hP, hQ]

theorem setNodeStatusFirst_map (s : Status) (id : Nat) :
    ∀ nodes : List GraphNode, (nodes.map GraphNode.id).Nodup →
      setNodeStatusFirst nodes id s =
        nodes.map (fun n => if decide (n.id = id) then {n with status := s} else n) := by
  intro nodes
  induction nodes with
  | nil => intro _; rfl
  | cons n ns ih =>
    intro hnd
    rw [List.map_cons, List.nodup_cons] at hnd
    simp only [setNodeStatusFirst, List.map_cons]
    by_cases hni : n.id = id
    · rw [if_pos hni, if_pos (by simp [hni])]
      congr 1
      have : ∀ m ∈ ns, (if decide (m.id = id) then {m with status := s} else m) = m := by
        intro m hm
        rw [if_neg (by
          simp only [decide_eq_true_eq]
          intro he
          exact hnd.1 (by
            rw [hni, ← he]
            exact List.mem_map.mpr ⟨m, hm, rfl⟩))]
      rw [List.map_congr_left this, List.map_id']
    · rw [if_neg hni, if_neg (by simp [hni]), ih hnd.2]

theorem resetOneId_eq_of_find (st : ExecState) (id : Nat) (n : GraphNode)
    (hf : findNodeById st.graph.nodes id = some n) :
    resetOneId st id =
      if n.kind ≠ NodeKind.checkpoint then
        { st with
          graph := {st.graph with
            nodes := setNodeStatusFirst st.graph.nodes id Status.pending},
          completed := st.completed.filter (fun cid => cid ≠ id),
          failed := st.failed.filter (fun fid => fid ≠ id),
          outputs := eraseOutput st.outputs id }
      else st := by
  unfold resetOneId
  rw [hf]

theorem resetOneId_eq_bulk (st : ExecState)
    (h : (st.graph.nodes.map GraphNode.id).Nodup) (id : Nat) :
    resetOneId st id =
      bulkReset st (fun i => decide (i = id) && resettableId st i) := by
  cases hf : findNodeById st.graph.nodes id with
  | none =>
    have hp : (fun i => decide (i = id) && resettableId st i) = fun _ => false := by
      funext i
      by_cases hi : i = id
      · subst hi; simp [resettableId, hf]
      · simp [hi]
    rw [hp, bulkReset_false]
    unfold resetOneId
    rw [hf]
  | some n =>
    by_cases hk : n.kind = NodeKind.checkpoint
    · have hp : (fun i => decide (i = id) && resettableId st i) = fun _ => false := by
        funext i
        by_cases hi : i = id
        · subst hi; simp [resettableId, hf, hk]
        · simp [hi]
      rw [hp, bulkReset_false, resetOneId_eq_of_find st id n hf,
        if_neg (by simp [hk])]
    · have hp : (fun i => decide (i = id) && resettableId st i) =
          fun i => decide (i = id) := by
        funext i
        by_cases hi : i = id
        · subst hi; simp [resettableId, hf, hk]
        · simp [hi]
      rw [hp, resetOneId_eq_of_find st id n hf, if_pos (by simp [hk])]
      obtain ⟨g, cur, comp, fl, sk, outs⟩ := st
      obtain ⟨gn, ge⟩ := g
      simp only [bulkReset, Graph.mk.injEq, ExecState.mk.injEq]
      refine ⟨⟨?_, trivial⟩, trivial, ?_, ?_, trivial, ?_⟩
      · exact setNodeStatusFirst_map Status.pending id gn h
      · apply List.filter_congr
        intro i _
        simp [decide_not]
      · apply List.filter_congr
        intro i _
        simp [decide_not]
      · unfold eraseOutput
        apply List.filter_congr
        intro p _
        simp [decide_not]

theorem foldl_resetOneId :
    ∀ (ids : List Nat) (st : ExecState),
      (st.graph.nodes.map GraphNode.id).Nodup →
      ids.foldl resetOneId st =
        bulkReset st (fun i => decide (i ∈ ids) && resettableId st i) := by
  intro ids
  induction ids with
  | nil =>
    intro st _
    have hp : (fun i => decide (i ∈ ([] : List Nat)) && resettableId st i) =
        fun _ => false := by
      funext i
      simp
    rw [List.foldl_nil, hp, bulkReset_false]
  | cons id rest ih =>
    intro st h
    rw [List.foldl_cons, resetOneId_eq_bulk st h id]
    have h1 : ((bulkReset st
        (fun i => decide (i = id) && resettableId st i)).graph.nodes.map
          GraphNode.id).Nodup := by
      rw [bulkReset_nodes_ids]; exact h
    rw [ih _ h1]
    have hr : (fun i => decide (i ∈ rest) &&
        resettableId (bulkReset st (fun i2 => decide (i2 = id) && resettableId st i2)) i) =
        fun i => decide (i ∈ rest) && resettableId st i := by
      funext i
      rw [resettableId_bulk]
    rw [hr, bulkReset_compose]
    congr 1
    funext i
    by_cases h1 : i = id <;> by_cases h2 : i ∈ rest <;>
      simp [h1, h2, List.mem_cons]

/-- C6 amended: the steering jump's resetFromNode resets the selected node
and every non-checkpoint node reachable from it (over all edges,
conditioned or not) to pending, removes them from the completed/failed
lists and deletes their stored outputs; checkpoint nodes — even downstream
ones — and every node not reachable from the jump target keep their status
and outputs, and the edge list, skipped list, current list are untouched. -/
theorem C6_reset_amended (st : ExecState) (node : GraphNode)
    (h : (st.graph.nodes.map GraphNode.id).Nodup) :
    (resetFromNode node st).graph.nodes =
      st.graph.nodes.map (fun n =>
        if n.id ∈ downstreamSet st.graph node.id ∧ n.kind ≠ NodeKind.checkpoint
        then {n with status := Status.pending} else n) ∧
    (resetFromNode node st).outputs =
      st.outputs.filter (fun p =>
        !(decide (p.1 ∈ downstreamSet st.graph node.id) && resettableId st p.1)) ∧
    (resetFromNode node st).completed =
      st.completed.filter (fun i =>
        !(decide (i ∈ downstreamSet st.graph node.id) && resettableId st i)) ∧
    (resetFromNode node st).failed =
      st.failed.filter (fun i =>
        !(decide (i ∈ downstreamSet st.graph node.id) && resettableId st i)) ∧
    (resetFromNode node st).graph.edges = st.graph.edges ∧
    (resetFromNode node st).skipped = st.skipped ∧
    (resetFromNode node st).current = st.current := by
  have hfold : resetFromNode node st =
      bulkReset st (fun i =>
        decide (i ∈ downstreamSet st.graph node.id) && resettableId st i) :=
    foldl_resetOneId (downstreamSet st.graph node.id) st h
  rw [hfold]
  refine ⟨?_, rfl, rfl, rfl, rfl, rfl, rfl⟩
  show st.graph.nodes.map _ = st.graph.nodes.map _
  apply List.map_congr_left
  intro n hn
  have hres : resettableId st n.id = decide (n.kind ≠ NodeKind.checkpoint) := by
    unfold resettableId
    rw [findNodeById_nodup st.graph.nodes h n hn]
  simp only [hres]
  by_cases h1 : n.id ∈ downstreamSet st.graph node.id <;>
    by_cases h2 : n.kind = NodeKind.checkpoint <;>
      simp [h1, h2]

/-- C6 witness: the amended characterization instantiated on the chain
node-0 → checkpoint node-1 → node-2 with all three completed. -/
theorem C6_witness :
    (resetFromNode
      {id := 0, kind := NodeKind.agent, agent := some "explore", status := Status.completed}
      { graph := { nodes := [{id := 0, kind := NodeKind.agent, agent := some "explore",
                              status := Status.completed},
                             {id := 1, kind := NodeKind.checkpoint, label := some "@cp",
                              status := Status.completed},
                             {id := 2, kind := NodeKind.agent, agent := some "general-purpose",
                              status := Status.completed}],
                   edges := [{fromId := 0, toId := 1}, {fromId := 1, toId := 2}] },
        completed := [0, 1, 2],
        outputs := [(0, {success := true, result := some "r0"}),
                    (1, {success := true, result := some "r1"}),
                    (2, {success := true, result := some "r2"})] }).graph.nodes =
      ([{id := 0, kind := NodeKind.agent, agent := some "explore",
         status := Status.completed},
        {id := 1, kind := NodeKind.checkpoint, label := some "@cp",
         status := Status.completed},
        {id := 2, kind := NodeKind.agent, agent := some "general-purpose",
         status := Status.completed}] : List GraphNode).map (fun n =>
          if n.id ∈ downstreamSet
              { nodes := [{id := 0, kind := NodeKind.agent, agent := some "explore",
                           status := Status.completed},
                          {id := 1, kind := NodeKind.checkpoint, label := some "@cp",
                           status := Status.completed},
                          {id := 2, kind := NodeKind.agent, agent := some "general-purpose",
                           status := Status.completed}],
                edges := [{fromId := 0, toId := 1}, {fromId := 1, toId := 2}] } 0 ∧
            n.kind ≠ NodeKind.checkpoint
          then {n with status := Status.pending} else n) :=
  (C6_reset_amended
    { graph := { nodes := [{id := 0, kind := NodeKind.agent, agent := some "explore",
                            status := Status.completed},
                           {id := 1, kind := NodeKind.checkpoint, label := some "@cp",
                            status := Status.completed},
                           {id := 2, kind := NodeKind.agent, agent := some "general-purpose",
                            status := Status.completed}],
                 edges := [{fromId := 0, toId := 1}, {fromId := 1, toId := 2}] },
      completed := [0, 1, 2],
      outputs := [(0, {success := true, result := some "r0"}),
                  (1, {success := true, result := some "r1"}),
                  (2, {success := true, result := some "r2"})] }
    {id := 0, kind := NodeKind.agent, agent := some "explore", status := Status.completed}
    (by decide)).1

end Orkestr
